import Mathlib

/-!
# The per-frame interaction loop of the web AR viewer (`src/app.js`, class `App`)

A shallow embedding of `App.update`, `App.createText` and the part of the `App`
constructor they depend on.

Conventions of the embedding

* JavaScript numbers are rationals (`ℚ`) and arithmetic is exact, except for the product
  of lines 346 and 349, which is rounded to the nearest double (`roundDouble`) before it
  is floored.  A slot that may hold `undefined` is an `Option ℚ`.
* JavaScript objects with identity (meshes, materials, colours) carry a reference number
  drawn from the allocation counter `App.nextRef`; materials live in `App.materials` and
  objects refer to them, so that an assignment to a material is seen through every
  reference to it.
* Calls into collaborators (orbit controls, input devices, raycaster, renderer, console)
  are recorded, in order, in `App.log`.
* A thrown exception is a `Completion` whose `thrown` field is set; the state it carries
  is the state at the moment of the throw, as in JavaScript.
* The three.js helpers the loop calls (`Matrix4.fromArray`,
  `Vector3.setFromMatrixPosition`, `Object3D.add`, `Object3D.removeFromParent`,
  `new Color(number)`) are modelled after the library functions of these names; the
  doc comment of each definition quotes the library behaviour it follows.
-/

namespace BIMFM

/-! ## Data model -/

/-- A JavaScript number slot that may also hold the value undefined (none). -/
abbrev JSNum := Option ℚ

/-- A three.js Vector3 whose components may be undefined after a read past the end of
an array. -/
structure Vector3 where
  x : JSNum
  y : JSNum
  z : JSNum
  deriving DecidableEq, Repr

/-- A three.js Quaternion (orientation of an Object3D). -/
structure Quaternion where
  x : ℚ
  y : ℚ
  z : ℚ
  w : ℚ
  deriving DecidableEq, Repr

/-- The transform of `this.model`, a three.js Group: position, orientation and scale.
The 4x4 local matrix of the group is composed by three.js from these three fields. -/
structure Group where
  position : Vector3
  quaternion : Quaternion
  scale : Vector3
  deriving DecidableEq, Repr

/-- The transform of a freshly constructed Group: origin, identity orientation, unit scale
(`new Group()` in the constructor, line 47). -/
def Group.new : Group :=
  { position := ⟨some 0, some 0, some 0⟩
    quaternion := ⟨0, 0, 0, 1⟩
    scale := ⟨some 1, some 1, some 1⟩ }

/-- A three.js Matrix4: sixteen element slots, column-major. -/
structure Matrix4 where
  elements : List JSNum
  deriving DecidableEq, Repr

/-- The identity matrix built by `new Matrix4()`. -/
def Matrix4.new : Matrix4 :=
  ⟨[some 1, some 0, some 0, some 0,
    some 0, some 1, some 0, some 0,
    some 0, some 0, some 1, some 0,
    some 0, some 0, some 0, some 1]⟩

/-- Reading `array[i]` from a JavaScript array of numbers: undefined past the end. -/
def jsIndex (array : List ℚ) (i : Nat) : JSNum := array[i]?

/-- The three.js method `Matrix4.fromArray(array)`: for i from 0 to 15 it assigns
`this.elements[i] = array[i]`, with no check of the length of the array. -/
def Matrix4.fromArray (_m : Matrix4) (array : List ℚ) : Matrix4 :=
  ⟨(List.range 16).map (jsIndex array)⟩

/-- Reading `m.elements[i]`. -/
def Matrix4.element (m : Matrix4) (i : Nat) : JSNum := (m.elements[i]?).join

/-- The three.js method `Vector3.setFromMatrixPosition(m)`: it assigns
`this.x = e[12]`, `this.y = e[13]`, `this.z = e[14]` where `e = m.elements`. -/
def Vector3.setFromMatrixPosition (_v : Vector3) (m : Matrix4) : Vector3 :=
  ⟨m.element 12, m.element 13, m.element 14⟩

/-- The value `pose.transform.matrix` of an XRPose. -/
structure XRPose where
  matrix : List ℚ
  deriving DecidableEq, Repr

/-- One entry of `frame.getImageTrackingResults()`, together with the value that
`frame.getPose(result.imageSpace, referenceSpace)` returns for it (null is none). -/
structure XRImageTrackingResult where
  trackingState : String
  pose : Option XRPose
  deriving DecidableEq, Repr

/-- An XRFrame, as far as `update` reads it. -/
structure XRFrame where
  results : List XRImageTrackingResult
  deriving DecidableEq, Repr

/-- A colour object created by `new Color(hex)`; `ref` is its identity. -/
structure Color where
  ref : Nat
  hex : ℤ
  deriving DecidableEq, Repr

/-- A three.js material object, as far as `update` touches it: `uuid` is its identity and
`color` the colour object it currently holds. -/
structure Material where
  uuid : Nat
  color : Color
  deriving DecidableEq, Repr

/-- The value of `obj.material`: a reference to a Material, an Array of such references
(the same material object may be held at several positions), or anything else (neither
branch of lines 345 to 351 is taken). -/
inductive MaterialSlot where
  | single (material : Nat)
  | array (material : List Nat)
  | other
  deriving DecidableEq, Repr

/-- Position of a pickable object (plain numbers). -/
structure Point3 where
  x : ℚ
  y : ℚ
  z : ℚ
  deriving DecidableEq, Repr

/-- An object of the scene graph that the raycaster can return.  `name` is the three.js
property of that name; `Name` and `Description` are the metadata properties that
`update` reads (none when the property is missing). -/
structure SceneObject where
  ref : Nat
  name : String
  Name : Option String
  Description : Option String
  position : Point3
  material : MaterialSlot
  deriving DecidableEq, Repr

/-- The callback handed to `createText` as `onLoad`.  The only callback in the source is
the one of lines 335 to 340, which schedules the removal of both meshes. -/
inductive OnLoad where
  | removeAfter (delay : Nat)
  deriving DecidableEq, Repr

/-- A `createText` call whose font has not been delivered yet. -/
structure TextRequest where
  nametext : String
  manuftext : String
  nameposition : Point3
  manufposition : Point3
  onLoad : Option OnLoad
  deriving DecidableEq, Repr

/-- A pending `setTimeout` of lines 336 to 339: at time `due` both meshes are detached. -/
structure Timer where
  due : Nat
  nameMesh : Nat
  manufMesh : Nat
  deriving DecidableEq, Repr

/-- Calls into collaborators, in the order `update` makes them. -/
inductive Call where
  | controlsUpdate
  | consoleLog (msg : String)
  | keyboardUpdate
  | mouseUpdate
  | touchUpdate
  | setFromCamera (x y : ℚ)
  | intersectObjects (roots : List Nat)
  | fontLoad (url : String)
  | setTimeout (delay : Nat)
  | render (children : List Nat)
  deriving DecidableEq, Repr

/-- The state of an `App` instance and of the browser services it uses. -/
structure App where
  /-- Value of `this.renderer.xr.enabled`. -/
  xrEnabled : Bool
  /-- Value of `this.renderer.xr.isPresenting`: an immersive session is running. -/
  xrPresenting : Bool
  /-- Transform of `this.model`. -/
  model : Group
  /-- Value of `this.scene.children`, as object references. -/
  children : List Nat
  /-- The pickable objects of the scene graph. -/
  objects : List SceneObject
  /-- The material objects that the pickable objects refer to. -/
  materials : List Material
  /-- Font loads started by `createText` and not yet delivered. -/
  pendingText : List TextRequest
  /-- Timeouts scheduled and not yet fired. -/
  timers : List Timer
  /-- Current time in milliseconds. -/
  now : Nat
  /-- Next unused object reference. -/
  nextRef : Nat
  /-- Collaborator calls made so far. -/
  log : List Call
  deriving DecidableEq

/-- A JavaScript exception. -/
inductive JSError where
  | typeError (msg : String)
  deriving DecidableEq, Repr

/-- Outcome of running a piece of code: the state reached and the exception thrown, if
any. -/
structure Completion where
  app : App
  thrown : Option JSError

/-- Record a collaborator call. -/
def App.call (app : App) (c : Call) : App := { app with log := app.log ++ [c] }

/-! ## Pose update (lines 285 to 301) -/

/-- The body of the loop `for (const result of results)` of lines 288 to 300, run over the
remaining results.  A thrown exception ends the loop. -/
def trackResults (app : App) : List XRImageTrackingResult → Completion
  | [] => ⟨app, none⟩
  | result :: rest =>
    let pose := result.pose
    let state := result.trackingState
    if state = "tracked" then
      match pose with
      | none => ⟨app, some (.typeError "Cannot read properties of null")⟩
      | some pose =>
        let matrix := Matrix4.new
        let matrix := matrix.fromArray pose.matrix
        let app := app.call (.consoleLog "Model Pose updated from marker")
        let app := { app with
          model := { app.model with
            position := app.model.position.setFromMatrixPosition matrix } }
        trackResults app rest
    else
      trackResults app rest

/-- The pose-update step: `if (frame) ...` of lines 286 to 301. -/
def poseUpdate (app : App) (frame : Option XRFrame) : Completion :=
  match frame with
  | none => ⟨app, none⟩
  | some frame => trackResults app frame.results

/-! ## Annotations (`createText`, lines 227 to 264) and their removal timer -/

/-- What `new MeshPhongMaterial` with a colour parameter allocates: a material with
its own colour object. -/
def newMeshPhongMaterial (ref : Nat) (hex : ℤ) : Material :=
  { uuid := ref, color := ⟨ref + 1, hex⟩ }

/-- The two materials of a text mesh (lines 243 to 245 and 252 to 254), face and border;
with their colours they take the references `ref` to `ref + 3`. -/
def newTextMaterials (ref : Nat) : List Material :=
  [newMeshPhongMaterial ref 0xad4000, newMeshPhongMaterial (ref + 2) 0x5c2301]

/-- The text mesh built at lines 242 to 246 and 251 to 255 over the two materials of
`newTextMaterials ref`; the mesh takes the reference `ref + 4`. -/
def newTextMesh (ref : Nat) (position : Point3) : SceneObject :=
  { ref := ref + 4
    name := ""
    Name := none
    Description := none
    position := position
    material := .array [ref, ref + 2] }

/-- The three.js call `this.scene.add(mesh)` for a mesh that has no parent yet: the mesh
is pushed at the end of the children of the scene. -/
def App.sceneAdd (app : App) (mesh : SceneObject) : App :=
  { app with children := app.children ++ [mesh.ref], objects := app.objects ++ [mesh] }

/-- The three.js call `mesh.removeFromParent()` for a mesh whose parent, if any, is the
scene: the first occurrence of the mesh is spliced out of the children; nothing
happens when the mesh is not a child. -/
def App.removeFromParent (app : App) (mesh : Nat) : App :=
  { app with children := app.children.erase mesh }

/-- The browser call `setTimeout(callback, delay)` with the callback of lines 336 to 339. -/
def App.setTimeout (app : App) (nameMesh manufMesh delay : Nat) : App :=
  { app.call (.setTimeout delay) with
    timers := app.timers ++ [⟨app.now + delay, nameMesh, manufMesh⟩] }

/-- Running `onLoad(nameMesh, manufMesh)`. -/
def OnLoad.run (app : App) (nameMesh manufMesh : Nat) : OnLoad → App
  | .removeAfter delay => app.setTimeout nameMesh manufMesh delay

/-- The method `createText` up to the start of the font load (lines 228 and 229): the
rest of the method runs when the font arrives. -/
def createText (app : App) (nametext manuftext : String)
    (nameposition manufposition : Point3) (onLoad : Option OnLoad) : App :=
  { app.call (.fontLoad "assets/robotofont.json") with
    pendingText := app.pendingText ++
      [⟨nametext, manuftext, nameposition, manufposition, onLoad⟩] }

/-- The font callback of `createText` (lines 229 to 263): both meshes are built and added
to the scene, then `onLoad` is called if it was given. -/
def fontCallback (app : App) (req : TextRequest) : App :=
  let app := { app with materials := app.materials ++ newTextMaterials app.nextRef }
  let nameMesh := newTextMesh app.nextRef req.nameposition
  let app := app.sceneAdd nameMesh
  let app := { app with materials := app.materials ++ newTextMaterials (app.nextRef + 5) }
  let manufMesh := newTextMesh (app.nextRef + 5) req.manufposition
  let app := app.sceneAdd manufMesh
  let app := { app with nextRef := app.nextRef + 10 }
  match req.onLoad with
  | some onLoad => onLoad.run app nameMesh.ref manufMesh.ref
  | none => app

/-- The timeout callback of lines 336 to 339. -/
def fireTimer (app : App) (t : Timer) : App :=
  (app.removeFromParent t.nameMesh).removeFromParent t.manufMesh

/-! ## The frame callback `update` (lines 279 to 359) -/

/-- What the browser and the collaborators hand to one call of `update(time, frame)`.
The raycaster, the input devices and `Math.random` are external: their answers are
inputs of the step. -/
structure FrameInput where
  /-- The `frame` argument; none when it is null or undefined. -/
  frame : Option XRFrame
  /-- Values of `this.mouse.position.x` and `.y` after `this.mouse.update()`. -/
  mouseX : ℚ
  mouseY : ℚ
  /-- Values of `window.innerWidth` and `window.innerHeight`. -/
  innerWidth : ℚ
  innerHeight : ℚ
  /-- Value of `this.mouse.buttonJustPressed(MouseButton.LEFT)`. -/
  leftJustPressed : Bool
  /-- The objects of the hits returned by `raycaster.intersectObjects`, nearest first. -/
  intersects : List Nat
  /-- The value returned by the k-th call of `Math.random()` during this frame, a double
  of the interval from 0 (included) to 1 (excluded). -/
  random : Nat → ℚ

/-- Line 311: `pointer.x`. -/
def pointerX (px width : ℚ) : ℚ := (px / width) * 2 - 1

/-- Line 312: `pointer.y`. -/
def pointerY (py height : ℚ) : ℚ := (-py / height) * 2 + 1

/-- String concatenation with a property that may be missing: undefined is rendered as
the text undefined. -/
def jsToString : Option String → String
  | none => "undefined"
  | some s => s

/-- Rounding of a number with fractional part to the nearest integer, a tie going to the
even neighbour. -/
def roundHalfEven (n : ℚ) : ℤ :=
  if n - ⌊n⌋ < 1 / 2 then ⌊n⌋
  else if 1 / 2 < n - ⌊n⌋ then ⌊n⌋ + 1
  else if ⌊n⌋ % 2 = 0 then ⌊n⌋
  else ⌊n⌋ + 1

/-- The double nearest to a non-negative exact result (53 significant bits, ties to
even), for results in the range of normal doubles: what a floating-point operation
returns for the exact result `q`. -/
def roundDouble (q : ℚ) : ℚ :=
  if q ≤ 0 then 0
  else roundHalfEven (q / 2 ^ (Int.log 2 q - 52)) * 2 ^ (Int.log 2 q - 52)

/-- The colour built by `new Color(0xFFFFFF * Math.random())` for the draw `r`: the
product is a double, and `Color.setHex` floors its argument. -/
def randomColor (ref : Nat) (r : ℚ) : Color := ⟨ref, ⌊roundDouble (0xFFFFFF * r)⌋⟩

/-- The assignment `material.color = color` to the material object `uuid`. -/
def setColor (materials : List Material) (uuid : Nat) (color : Color) : List Material :=
  materials.map (fun m => if m.uuid = uuid then { m with color := color } else m)

/-- The loop of lines 348 to 350 from index `m` on: each position is assigned in turn, on
the material object it refers to. -/
def recolorArray (next : Nat) (random : Nat → ℚ) :
    Nat → List Nat → List Material → List Material
  | _, [], materials => materials
  | m, material :: rest, materials =>
    recolorArray next random (m + 1) rest
      (setColor materials material (randomColor (next + m) (random m)))

/-- Lines 345 to 351: the recolouring of the materials that `obj.material` refers to. -/
def recolor (next : Nat) (random : Nat → ℚ) : MaterialSlot → List Material → List Material
  | .single material, materials => setColor materials material (randomColor next (random 0))
  | .array material, materials => recolorArray next random 0 material materials
  | .other, materials => materials

/-- Number of colour objects that `recolor` allocates. -/
def MaterialSlot.colors : MaterialSlot → Nat
  | .single _ => 1
  | .array material => material.length
  | .other => 0

/-- The object found behind a hit. -/
def App.lookup (app : App) (ref : Nat) : Option SceneObject :=
  app.objects.find? (fun o => decide (o.ref = ref))

/-- The material object behind a reference. -/
def App.material (app : App) (uuid : Nat) : Option Material :=
  app.materials.find? (fun m => decide (m.uuid = uuid))

/-- Lines 343 to 351 for the picked object `obj`. -/
def App.recolorObject (app : App) (obj : SceneObject) (random : Nat → ℚ) : App :=
  { app with
    materials := recolor app.nextRef random obj.material app.materials
    nextRef := app.nextRef + obj.material.colors }

/-- Lines 318 to 353: picking, annotation request and recolouring.  A hit whose object is
not in `objects` does not occur with a raycaster that returns scene objects; the model
leaves the state alone there. -/
def pickStep (app : App) (inp : FrameInput) : App :=
  if inp.leftJustPressed then
    let app := app.call (.intersectObjects app.children)
    match inp.intersects with
    | [] => app
    | hit :: _ =>
      match app.lookup hit with
      | none => app
      | some obj =>
        let app := app.call (.consoleLog "Object Properties:")
        let NameText := "Name: " ++ jsToString obj.Name
        let DescText := "Description: " ++ jsToString obj.Description
        let app := createText app NameText DescText
          ⟨obj.position.x - 100, obj.position.y + 160, obj.position.z⟩
          ⟨obj.position.x - 100, obj.position.y + 140, obj.position.z⟩
          (some (.removeAfter 2000))
        app.recolorObject obj inp.random
  else app

/-- Lines 280 to 283: the orbit controls are updated when `xr.enabled` is false. -/
def controlsStep (app : App) : App :=
  if !app.xrEnabled then app.call .controlsUpdate else app

/-- Lines 303 to 358, run only when the pose update has not thrown. -/
def inputPickRender (app : App) (inp : FrameInput) : App :=
  let app := app.call .keyboardUpdate
  let app := app.call .mouseUpdate
  let app := app.call .touchUpdate
  let app := app.call (.setFromCamera (pointerX inp.mouseX inp.innerWidth)
    (pointerY inp.mouseY inp.innerHeight))
  let app := pickStep app inp
  app.call (.render app.children)

/-- The method `update(time, frame)`; `time` is not read by the method. -/
def update (app : App) (inp : FrameInput) : Completion :=
  let app := controlsStep app
  let c := poseUpdate app inp.frame
  match c.thrown with
  | some e => ⟨c.app, some e⟩
  | none => ⟨inputPickRender c.app inp, none⟩

/-! ## The constructor and the life of an `App` -/

/-- State after `new App(canvas)` (lines 15 to 81): `xr.enabled` is set to true; the scene
holds the model group, the camera and the two lights (references 0 to 3), none of which
the raycaster can hit. -/
def App.new : App :=
  { xrEnabled := true
    xrPresenting := false
    model := Group.new
    children := [0, 1, 2, 3]
    objects := []
    materials := []
    pendingText := []
    timers := []
    now := 0
    nextRef := 4
    log := [] }

/-- One millisecond passes and every timeout that has become due runs, in the order of
scheduling. -/
def tick (app : App) : App :=
  let now := app.now + 1
  let due := app.timers.filter (fun t => decide (t.due ≤ now))
  let rest := app.timers.filter (fun t => !decide (t.due ≤ now))
  due.foldl fireTimer { app with now := now, timers := rest }

/-- What can happen to an `App` after its construction. -/
inductive Event where
  /-- The animation loop calls `update`. -/
  | update (inp : FrameInput)
  /-- The font of the i-th pending `createText` call arrives. -/
  | fontLoaded (i : Nat)
  /-- One millisecond passes. -/
  | tick
  /-- An immersive session starts or ends. -/
  | sessionStart
  | sessionEnd
  /-- A model loaded by the start-up code is added below the model group, with its
  materials. -/
  | modelLoaded (objs : List SceneObject) (materials : List Material)

/-- Effect of one event. -/
def step (app : App) : Event → App
  | .update inp => (update app inp).app
  | .fontLoaded i =>
    match app.pendingText[i]? with
    | none => app
    | some req => fontCallback { app with pendingText := app.pendingText.eraseIdx i } req
  | .tick => tick app
  | .sessionStart => { app with xrPresenting := true }
  | .sessionEnd => { app with xrPresenting := false }
  | .modelLoaded objs materials =>
    { app with objects := app.objects ++ objs, materials := app.materials ++ materials }

/-- Effect of a sequence of events. -/
def run (app : App) (events : List Event) : App := events.foldl step app

/-! ## Notions used to state the properties -/

/-- A result counts for the pose update when its state is the string tracked. -/
def isTracked (r : XRImageTrackingResult) : Bool := decide (r.trackingState = "tracked")

/-- The position that `setFromMatrixPosition` reads out of a pose matrix array: entries
12, 13 and 14, each undefined when the array is too short. -/
def positionOf (array : List ℚ) : Vector3 := ⟨array[12]?, array[13]?, array[14]?⟩

/-- The material references held by the value of `obj.material`, in order. -/
def MaterialSlot.refs : MaterialSlot → List Nat
  | .single material => [material]
  | .array material => material
  | .other => []

/-- A rounding of exact results to representable numbers, as floating-point arithmetic
performs after each operation: it keeps the order and leaves the constants of lines 311
and 312 and one half alone. -/
structure Rounding (fl : ℚ → ℚ) : Prop where
  mono : ∀ a b, a ≤ b → fl a ≤ fl b
  neg_two : fl (-2) = -2
  neg_one : fl (-1) = -1
  neg_half : fl (-(1 / 2)) = -(1 / 2)
  zero : fl 0 = 0
  half : fl (1 / 2) = 1 / 2
  one : fl 1 = 1
  two : fl 2 = 2

/-- Line 311 with the result of every operation rounded by `fl`. -/
def pointerXRounded (fl : ℚ → ℚ) (px width : ℚ) : ℚ := fl (fl (fl (px / width) * 2) - 1)

/-- Line 312 with the result of every operation rounded by `fl` (negation is exact). -/
def pointerYRounded (fl : ℚ → ℚ) (py height : ℚ) : ℚ :=
  fl (fl (fl (-py / height) * 2) + 1)

/-- An example of a pickable object: a wall with a name and no description. -/
def exampleWall : SceneObject :=
  ⟨7, "", some "Wall-12", none, ⟨0, 0, 0⟩, .single 20⟩

/-- An example of a frame outside a session in which the left button was just pressed
and the ray hits the example wall. -/
def examplePick : FrameInput := ⟨none, 400, 300, 800, 600, true, [7], fun _ => 1 / 2⟩

/-- The App after its construction, the loading of the example wall and the example
pick: one annotation is waiting for its font. -/
def examplePicked : App :=
  run App.new [.modelLoaded [exampleWall] [⟨20, ⟨21, 0xffffff⟩⟩], .update examplePick]

/-- An example of a frame outside a session in which the left button was just pressed and
the ray hits object 7, with the given draws of `Math.random`. -/
def pickWith (random : Nat → ℚ) : FrameInput :=
  ⟨none, 400, 300, 800, 600, true, [7], random⟩

/-- An example of a scene whose object 7 holds three distinct materials. -/
def exampleThree : App :=
  { App.new with
    objects := [⟨7, "", none, none, ⟨0, 0, 0⟩, .array [20, 22, 24]⟩]
    materials := [⟨20, ⟨21, 255⟩⟩, ⟨22, ⟨23, 255⟩⟩, ⟨24, ⟨25, 0⟩⟩] }

/-- An example of a scene whose object 7 holds the same material object at both positions
of its material list. -/
def exampleShared : App :=
  { App.new with
    objects := [⟨7, "", none, none, ⟨0, 0, 0⟩, .array [20, 20]⟩]
    materials := [⟨20, ⟨21, 255⟩⟩] }

/-- An example of a scene whose object 7 holds a single black material. -/
def exampleBlack : App :=
  { App.new with
    objects := [⟨7, "", none, none, ⟨0, 0, 0⟩, .single 20⟩]
    materials := [⟨20, ⟨21, 0⟩⟩] }

/-- Well-formedness of the scene bookkeeping: no object is twice among the children of
the scene, and every reference held by the scene or by a timer has been allocated. -/
def WF (app : App) : Prop :=
  app.children.Nodup ∧
  (∀ c ∈ app.children, c < app.nextRef) ∧
  (∀ t ∈ app.timers, t.nameMesh < app.nextRef ∧ t.manufMesh < app.nextRef)

/-- The life of the annotation whose meshes are `a` and `b` and whose removal is due at
time `D`: before `D` both meshes are children of the scene and the removal is pending,
and no other timer aims at them; from `D` on neither is a child. -/
def Lifetime (a b D : Nat) (app : App) : Prop :=
  WF app ∧ a < app.nextRef ∧ b < app.nextRef ∧
  (app.now < D → a ∈ app.children ∧ b ∈ app.children ∧
    (⟨D, a, b⟩ : Timer) ∈ app.timers ∧
    ∀ t ∈ app.timers, t ≠ ⟨D, a, b⟩ →
      t.nameMesh ≠ a ∧ t.nameMesh ≠ b ∧ t.manufMesh ≠ a ∧ t.manufMesh ≠ b) ∧
  (D ≤ app.now → a ∉ app.children ∧ b ∉ app.children)

/-! # Properties

## Pose update: what it touches -/

theorem element_fromArray (m : Matrix4) (array : List ℚ) (i : Nat) (hi : i < 16) :
    (m.fromArray array).element i = array[i]? := by
  simp [Matrix4.fromArray, Matrix4.element, jsIndex, List.getElem?_map,
    List.getElem?_range hi]

theorem setFromMatrixPosition_fromArray (v : Vector3) (m : Matrix4) (array : List ℚ) :
    v.setFromMatrixPosition (m.fromArray array) = positionOf array := by
  simp [Vector3.setFromMatrixPosition, positionOf, element_fromArray]

theorem trackResults_cons_tracked (app : App) (r : XRImageTrackingResult)
    (rest : List XRImageTrackingResult) (pose : XRPose)
    (hs : r.trackingState = "tracked") (hp : r.pose = some pose) :
    trackResults app (r :: rest) =
      trackResults { app.call (.consoleLog "Model Pose updated from marker") with
        model := { app.model with position := positionOf pose.matrix } } rest := by
  simp [trackResults, hs, hp, setFromMatrixPosition_fromArray, App.call]

theorem trackResults_cons_null (app : App) (r : XRImageTrackingResult)
    (rest : List XRImageTrackingResult)
    (hs : r.trackingState = "tracked") (hp : r.pose = none) :
    trackResults app (r :: rest) =
      ⟨app, some (.typeError "Cannot read properties of null")⟩ := by
  simp [trackResults, hs, hp]

theorem trackResults_cons_other (app : App) (r : XRImageTrackingResult)
    (rest : List XRImageTrackingResult) (hs : r.trackingState ≠ "tracked") :
    trackResults app (r :: rest) = trackResults app rest := by
  simp [trackResults, hs]

/-- Results in another state than tracked can be dropped from the list without changing
the outcome of the loop. -/
theorem trackResults_filter (app : App) (results : List XRImageTrackingResult) :
    trackResults app results = trackResults app (results.filter isTracked) := by
  induction results generalizing app with
  | nil => rfl
  | cons r rest ih =>
    by_cases hs : r.trackingState = "tracked"
    · have hf : (r :: rest).filter isTracked = r :: rest.filter isTracked := by
        simp [isTracked, hs]
      rw [hf]
      cases hp : r.pose with
      | none => rw [trackResults_cons_null _ _ _ hs hp, trackResults_cons_null _ _ _ hs hp]
      | some pose =>
        rw [trackResults_cons_tracked _ _ _ _ hs hp, trackResults_cons_tracked _ _ _ _ hs hp]
        exact ih _
    · have hf : (r :: rest).filter isTracked = rest.filter isTracked := by
        simp [isTracked, hs]
      rw [hf, trackResults_cons_other _ _ _ hs]
      exact ih _

/-- The loop changes nothing but the position of the model and the log, to which it only
adds its console message. -/
theorem trackResults_frame (app : App) (results : List XRImageTrackingResult) :
    ∃ position n, (trackResults app results).app =
      { app with model := { app.model with position := position },
                 log := app.log ++
                   List.replicate n (.consoleLog "Model Pose updated from marker") } := by
  induction results generalizing app with
  | nil => exact ⟨app.model.position, 0, by simp [trackResults]⟩
  | cons r rest ih =>
    by_cases hs : r.trackingState = "tracked"
    · cases hp : r.pose with
      | none =>
        rw [trackResults_cons_null _ _ _ hs hp]
        exact ⟨app.model.position, 0, by simp⟩
      | some pose =>
        rw [trackResults_cons_tracked _ _ _ _ hs hp]
        obtain ⟨position, n, h⟩ := ih
          { app.call (.consoleLog "Model Pose updated from marker") with
            model := { app.model with position := positionOf pose.matrix } }
        exact ⟨position, n + 1, by
          rw [h]; simp [App.call, List.replicate_succ]⟩
    · rw [trackResults_cons_other _ _ _ hs]
      exact ih app

theorem poseUpdate_frame (app : App) (frame : Option XRFrame) :
    ∃ position n, (poseUpdate app frame).app =
      { app with model := { app.model with position := position },
                 log := app.log ++
                   List.replicate n (.consoleLog "Model Pose updated from marker") } := by
  cases frame with
  | none => exact ⟨app.model.position, 0, by simp [poseUpdate]⟩
  | some f => exact trackResults_frame app f.results

/-- A list of results none of which is tracked leaves the whole state alone. -/
theorem trackResults_none_tracked (app : App) (results : List XRImageTrackingResult)
    (h : ∀ r ∈ results, r.trackingState ≠ "tracked") :
    trackResults app results = ⟨app, none⟩ := by
  induction results with
  | nil => rfl
  | cons r rest ih =>
    rw [trackResults_cons_other _ _ _ (h r (List.mem_cons_self _ _))]
    exact ih (fun r' hr' => h r' (List.mem_cons_of_mem _ hr'))

/-- When every tracked result carries a pose, the loop does not throw. -/
theorem trackResults_not_thrown (app : App) (results : List XRImageTrackingResult)
    (hposes : ∀ r ∈ results, r.trackingState = "tracked" → r.pose ≠ none) :
    (trackResults app results).thrown = none := by
  induction results generalizing app with
  | nil => rfl
  | cons r rest ih =>
    have hrest : ∀ r' ∈ rest, r'.trackingState = "tracked" → r'.pose ≠ none :=
      fun r' hr' => hposes r' (List.mem_cons_of_mem _ hr')
    by_cases hs : r.trackingState = "tracked"
    · cases hp : r.pose with
      | none => exact absurd hp (hposes r (List.mem_cons_self _ _) hs)
      | some pose =>
        rw [trackResults_cons_tracked _ _ _ _ hs hp]
        exact ih _ hrest
    · rw [trackResults_cons_other _ _ _ hs]
      exact ih app hrest

/-- When every tracked result carries a pose, the position of the model after the loop is
the one read from the last tracked result. -/
theorem trackResults_last (app : App) (results : List XRImageTrackingResult)
    (last : XRImageTrackingResult) (pose : XRPose)
    (hposes : ∀ r ∈ results, r.trackingState = "tracked" → r.pose ≠ none)
    (hlast : (results.filter isTracked).getLast? = some last)
    (hpose : last.pose = some pose) :
    (trackResults app results).app.model.position = positionOf pose.matrix := by
  induction results generalizing app with
  | nil => simp at hlast
  | cons r rest ih =>
    have hrest : ∀ r' ∈ rest, r'.trackingState = "tracked" → r'.pose ≠ none :=
      fun r' hr' => hposes r' (List.mem_cons_of_mem _ hr')
    by_cases hs : r.trackingState = "tracked"
    · have hf : (r :: rest).filter isTracked = r :: rest.filter isTracked := by
        simp [isTracked, hs]
      rw [hf] at hlast
      cases hp : r.pose with
      | none => exact absurd hp (hposes r (List.mem_cons_self _ _) hs)
      | some p =>
        rw [trackResults_cons_tracked _ _ _ _ hs hp]
        cases hl : rest.filter isTracked with
        | nil =>
          rw [hl] at hlast
          simp at hlast
          subst hlast
          rw [trackResults_filter, hl]
          rw [hp] at hpose
          cases hpose
          rfl
        | cons r2 rest2 =>
          rw [hl, List.getLast?_cons_cons] at hlast
          rw [← hl] at hlast
          exact ih _ hrest hlast
    · have hf : (r :: rest).filter isTracked = rest.filter isTracked := by
        simp [isTracked, hs]
      rw [hf] at hlast
      rw [trackResults_cons_other _ _ _ hs]
      exact ih app hrest hlast

/-! ## Pose update: the claims -/

/-- C2: the pose-update step leaves the transform of the model group as it was when the
frame is absent and when no tracking result of the frame has the state tracked; it then
throws nothing and changes no other part of the state either.  Results in any other
state never matter: dropping them from the frame gives the same outcome. -/
theorem poseUpdate_untracked_keeps_transform (app : App) (frame : Option XRFrame)
    (h : frame = none ∨
      ∃ f, frame = some f ∧ ∀ r ∈ f.results, r.trackingState ≠ "tracked") :
    (poseUpdate app frame).app.model = app.model ∧
    (poseUpdate app frame).app = app ∧
    (poseUpdate app frame).thrown = none ∧
    ∀ f : XRFrame, poseUpdate app (some f) =
      poseUpdate app (some ⟨f.results.filter isTracked⟩) := by
  have hfilter : ∀ f : XRFrame, poseUpdate app (some f) =
      poseUpdate app (some ⟨f.results.filter isTracked⟩) :=
    fun f => trackResults_filter app f.results
  rcases h with h | ⟨f, hf, hno⟩
  · subst h
    exact ⟨rfl, rfl, rfl, hfilter⟩
  · subst hf
    have hEq : poseUpdate app (some f) = ⟨app, none⟩ :=
      trackResults_none_tracked app f.results hno
    exact ⟨by rw [hEq], by rw [hEq], by rw [hEq], hfilter⟩

theorem poseUpdate_untracked_keeps_transform_witness :
    (poseUpdate App.new (some ⟨[⟨"emulated", some ⟨[1, 2, 3]⟩⟩,
        ⟨"untrackable", none⟩, ⟨"Tracked", none⟩]⟩)).app.model = App.new.model ∧
    (poseUpdate App.new none).app.model = App.new.model :=
  ⟨(poseUpdate_untracked_keeps_transform App.new _
      (Or.inr ⟨_, rfl, by decide⟩)).1,
   (poseUpdate_untracked_keeps_transform App.new none (Or.inl rfl)).1⟩

/-- C3 (as amended): when the frame has at least one tracked result and every tracked
result carries a pose, the pose-update step throws nothing and the transform of the
model after it is the one obtained by processing the last tracked result alone; its
position is read from the matrix of that result, whatever the prior state and whatever
the other results are. -/
theorem poseUpdate_last_tracked_wins (app : App) (f : XRFrame)
    (last : XRImageTrackingResult)
    (hposes : ∀ r ∈ f.results, r.trackingState = "tracked" → r.pose ≠ none)
    (hlast : (f.results.filter isTracked).getLast? = some last) :
    (poseUpdate app (some f)).thrown = none ∧
    (poseUpdate app (some f)).app.model = (poseUpdate app (some ⟨[last]⟩)).app.model ∧
    (∀ pose, last.pose = some pose →
      (poseUpdate app (some f)).app.model.position = positionOf pose.matrix) ∧
    ∀ prior : App, (poseUpdate prior (some f)).app.model.position =
      (poseUpdate app (some f)).app.model.position := by
  have hmem : last ∈ f.results.filter isTracked := List.mem_of_getLast?_eq_some hlast
  rw [List.mem_filter] at hmem
  have hs : last.trackingState = "tracked" := by simpa [isTracked] using hmem.2
  obtain ⟨pose, hp⟩ := Option.ne_none_iff_exists'.mp (hposes last hmem.1 hs)
  have hpos : ∀ a : App, (poseUpdate a (some f)).app.model.position =
      positionOf pose.matrix :=
    fun a => trackResults_last a f.results last pose hposes hlast hp
  refine ⟨trackResults_not_thrown app f.results hposes, ?_, ?_, ?_⟩
  · obtain ⟨position, n, hframe⟩ := poseUpdate_frame app (some f)
    have h1 := hpos app
    rw [hframe] at h1
    simp only at h1
    rw [hframe]
    simp only [poseUpdate]
    rw [trackResults_cons_tracked _ _ _ _ hs hp]
    simp [trackResults, h1]
  · intro pose' hp'
    rw [hp] at hp'
    cases hp'
    exact hpos app
  · intro prior
    rw [hpos prior, hpos app]

theorem poseUpdate_last_tracked_wins_witness :
    (poseUpdate App.new (some ⟨[
        ⟨"tracked", some ⟨[1, 0, 0, 0, 0, 1, 0, 0, 0, 0, 1, 0, 7, 8, 9, 1]⟩⟩,
        ⟨"emulated", some ⟨[1, 0, 0, 0, 0, 1, 0, 0, 0, 0, 1, 0, 5, 5, 5, 1]⟩⟩,
        ⟨"tracked", some ⟨[1, 0, 0, 0, 0, 1, 0, 0, 0, 0, 1, 0, 4, 5, 6, 1]⟩⟩,
        ⟨"untrackable", none⟩]⟩)).app.model.position
      = positionOf [1, 0, 0, 0, 0, 1, 0, 0, 0, 0, 1, 0, 4, 5, 6, 1] :=
  (poseUpdate_last_tracked_wins App.new _
    ⟨"tracked", some ⟨[1, 0, 0, 0, 0, 1, 0, 0, 0, 0, 1, 0, 4, 5, 6, 1]⟩⟩
    (by decide) (by decide)).2.2.1 _ rfl

/-- C3 (as stated) fails: in a frame whose three results are all tracked and whose second
result has no pose, the step throws at the second result; the model keeps the position
(7, 8, 9) of the first result and not the position (4, 5, 6) of the last tracked one,
so its transform is not the one obtained by processing the last tracked result alone. -/
theorem null_pose_ends_the_loop :
    (([⟨"tracked", some ⟨[1, 0, 0, 0, 0, 1, 0, 0, 0, 0, 1, 0, 7, 8, 9, 1]⟩⟩,
        ⟨"tracked", none⟩,
        ⟨"tracked", some ⟨[1, 0, 0, 0, 0, 1, 0, 0, 0, 0, 1, 0, 4, 5, 6, 1]⟩⟩] :
        List XRImageTrackingResult).filter isTracked).getLast? =
      some ⟨"tracked", some ⟨[1, 0, 0, 0, 0, 1, 0, 0, 0, 0, 1, 0, 4, 5, 6, 1]⟩⟩ ∧
    (poseUpdate App.new (some ⟨[
        ⟨"tracked", some ⟨[1, 0, 0, 0, 0, 1, 0, 0, 0, 0, 1, 0, 7, 8, 9, 1]⟩⟩,
        ⟨"tracked", none⟩,
        ⟨"tracked", some ⟨[1, 0, 0, 0, 0, 1, 0, 0, 0, 0, 1, 0, 4, 5, 6, 1]⟩⟩]⟩)).thrown =
      some (.typeError "Cannot read properties of null") ∧
    (poseUpdate App.new (some ⟨[
        ⟨"tracked", some ⟨[1, 0, 0, 0, 0, 1, 0, 0, 0, 0, 1, 0, 7, 8, 9, 1]⟩⟩,
        ⟨"tracked", none⟩,
        ⟨"tracked", some ⟨[1, 0, 0, 0, 0, 1, 0, 0, 0, 0, 1, 0, 4, 5, 6, 1]⟩⟩]⟩)).app.model.position =
      ⟨some 7, some 8, some 9⟩ ∧
    (poseUpdate App.new (some ⟨[
        ⟨"tracked", some ⟨[1, 0, 0, 0, 0, 1, 0, 0, 0, 0, 1, 0, 4, 5, 6, 1]⟩⟩]⟩)).app.model.position =
      ⟨some 4, some 5, some 6⟩ ∧
    (poseUpdate App.new (some ⟨[
        ⟨"tracked", some ⟨[1, 0, 0, 0, 0, 1, 0, 0, 0, 0, 1, 0, 7, 8, 9, 1]⟩⟩,
        ⟨"tracked", none⟩,
        ⟨"tracked", some ⟨[1, 0, 0, 0, 0, 1, 0, 0, 0, 0, 1, 0, 4, 5, 6, 1]⟩⟩]⟩)).app.model ≠
    (poseUpdate App.new (some ⟨[
        ⟨"tracked", some ⟨[1, 0, 0, 0, 0, 1, 0, 0, 0, 0, 1, 0, 4, 5, 6, 1]⟩⟩]⟩)).app.model := by
  have hall : poseUpdate App.new (some ⟨[
        ⟨"tracked", some ⟨[1, 0, 0, 0, 0, 1, 0, 0, 0, 0, 1, 0, 7, 8, 9, 1]⟩⟩,
        ⟨"tracked", none⟩,
        ⟨"tracked", some ⟨[1, 0, 0, 0, 0, 1, 0, 0, 0, 0, 1, 0, 4, 5, 6, 1]⟩⟩]⟩) =
      ⟨{ App.new.call (.consoleLog "Model Pose updated from marker") with
          model := { App.new.model with
            position := positionOf [1, 0, 0, 0, 0, 1, 0, 0, 0, 0, 1, 0, 7, 8, 9, 1] } },
        some (.typeError "Cannot read properties of null")⟩ := by
    simp only [poseUpdate]
    rw [trackResults_cons_tracked _ _ _
      ⟨[1, 0, 0, 0, 0, 1, 0, 0, 0, 0, 1, 0, 7, 8, 9, 1]⟩ rfl rfl,
      trackResults_cons_null _ _ _ rfl rfl]
  have hlast : poseUpdate App.new (some ⟨[
        ⟨"tracked", some ⟨[1, 0, 0, 0, 0, 1, 0, 0, 0, 0, 1, 0, 4, 5, 6, 1]⟩⟩]⟩) =
      ⟨{ App.new.call (.consoleLog "Model Pose updated from marker") with
          model := { App.new.model with
            position := positionOf [1, 0, 0, 0, 0, 1, 0, 0, 0, 0, 1, 0, 4, 5, 6, 1] } },
        none⟩ := by
    simp only [poseUpdate]
    rw [trackResults_cons_tracked _ _ _
      ⟨[1, 0, 0, 0, 0, 1, 0, 0, 0, 0, 1, 0, 4, 5, 6, 1]⟩ rfl rfl]
    rfl
  rw [hall, hlast]
  refine ⟨by decide, rfl, by decide, by decide, by decide⟩

/-- What processing one tracked result does to the transform: it overwrites the position
of the model group alone, with entries 12, 13 and 14 of the 16-element pose matrix;
orientation and scale keep their prior values and nothing is thrown, so that poses with
the same translation entries give the same model transform whatever their rotation part
is. -/
theorem tracked_pose_sets_position_only (app : App) (r : XRImageTrackingResult)
    (pose : XRPose) (hs : r.trackingState = "tracked") (hp : r.pose = some pose)
    (hlen : pose.matrix.length = 16) :
    (poseUpdate app (some ⟨[r]⟩)).thrown = none ∧
    (poseUpdate app (some ⟨[r]⟩)).app.model =
      { position := ⟨some (pose.matrix.getD 12 0), some (pose.matrix.getD 13 0),
                     some (pose.matrix.getD 14 0)⟩
        quaternion := app.model.quaternion
        scale := app.model.scale } ∧
    ∀ (r' : XRImageTrackingResult) (pose' : XRPose), r'.trackingState = "tracked" →
      r'.pose = some pose' → positionOf pose'.matrix = positionOf pose.matrix →
      (poseUpdate app (some ⟨[r']⟩)).app.model = (poseUpdate app (some ⟨[r]⟩)).app.model := by
  have hone : ∀ (q : XRImageTrackingResult) (p : XRPose), q.trackingState = "tracked" →
      q.pose = some p → (poseUpdate app (some ⟨[q]⟩)).app.model =
        { app.model with position := positionOf p.matrix } ∧
        (poseUpdate app (some ⟨[q]⟩)).thrown = none := by
    intro q p hq hpq
    simp only [poseUpdate]
    rw [trackResults_cons_tracked _ _ _ _ hq hpq]
    simp [trackResults]
  refine ⟨(hone r pose hs hp).2, ?_, ?_⟩
  · rw [(hone r pose hs hp).1]
    have h12 : pose.matrix[12]? = some (pose.matrix.getD 12 0) := by
      rw [List.getD_eq_getElem?_getD, List.getElem?_eq_getElem (by omega)]; rfl
    have h13 : pose.matrix[13]? = some (pose.matrix.getD 13 0) := by
      rw [List.getD_eq_getElem?_getD, List.getElem?_eq_getElem (by omega)]; rfl
    have h14 : pose.matrix[14]? = some (pose.matrix.getD 14 0) := by
      rw [List.getD_eq_getElem?_getD, List.getElem?_eq_getElem (by omega)]; rfl
    unfold positionOf
    rw [h12, h13, h14]
  · intro r' pose' hs' hp' hsame
    rw [(hone r' pose' hs' hp').1, (hone r pose hs hp).1, hsame]

theorem tracked_pose_sets_position_only_witness :
    (poseUpdate App.new (some ⟨[⟨"tracked",
        some ⟨[0, 1, 0, 0, -1, 0, 0, 0, 0, 0, 1, 0, 1, 2, 3, 1]⟩⟩]⟩)).app.model =
      { position := ⟨some 1, some 2, some 3⟩
        quaternion := ⟨0, 0, 0, 1⟩
        scale := ⟨some 1, some 1, some 1⟩ } :=
  (tracked_pose_sets_position_only App.new
    ⟨"tracked", some ⟨[0, 1, 0, 0, -1, 0, 0, 0, 0, 0, 1, 0, 1, 2, 3, 1]⟩⟩
    ⟨[0, 1, 0, 0, -1, 0, 0, 0, 0, 0, 1, 0, 1, 2, 3, 1]⟩ rfl rfl rfl).2.1

/-- C4 (evaluation at the failing input): the identity pose and a pose turned by a quarter
turn about the z axis, both with translation (1, 2, 3), differ only in their rotation
part, yet they leave the model group with the same transform, whose orientation is still
the identity of the constructor: the rotation part of the pose is never applied. -/
theorem pose_rotation_is_ignored :
    ([1, 0, 0, 0, 0, 1, 0, 0, 0, 0, 1, 0, 1, 2, 3, 1] : List ℚ) ≠
      [0, 1, 0, 0, -1, 0, 0, 0, 0, 0, 1, 0, 1, 2, 3, 1] ∧
    (poseUpdate App.new (some ⟨[⟨"tracked",
        some ⟨[1, 0, 0, 0, 0, 1, 0, 0, 0, 0, 1, 0, 1, 2, 3, 1]⟩⟩]⟩)).app.model =
    (poseUpdate App.new (some ⟨[⟨"tracked",
        some ⟨[0, 1, 0, 0, -1, 0, 0, 0, 0, 0, 1, 0, 1, 2, 3, 1]⟩⟩]⟩)).app.model ∧
    (poseUpdate App.new (some ⟨[⟨"tracked",
        some ⟨[0, 1, 0, 0, -1, 0, 0, 0, 0, 0, 1, 0, 1, 2, 3, 1]⟩⟩]⟩)).app.model.quaternion =
      ⟨0, 0, 0, 1⟩ := by
  have h : ∀ m : List ℚ, (poseUpdate App.new (some ⟨[⟨"tracked", some ⟨m⟩⟩]⟩)).app.model =
      { App.new.model with position := positionOf m } := by
    intro m
    simp only [poseUpdate]
    rw [trackResults_cons_tracked _ _ _ ⟨m⟩ rfl rfl]
    rfl
  refine ⟨by decide, ?_, ?_⟩
  · rw [h, h]
    simp [positionOf]
  · rw [h]
    rfl

/-! ## The frame callback: what it touches -/

theorem update_thrown (app : App) (inp : FrameInput) :
    (update app inp).thrown = (poseUpdate (controlsStep app) inp.frame).thrown := by
  unfold update
  cases h : (poseUpdate (controlsStep app) inp.frame).thrown <;> simp [h]

theorem update_app_of_ok (app : App) (inp : FrameInput)
    (h : (poseUpdate (controlsStep app) inp.frame).thrown = none) :
    (update app inp).app =
      inputPickRender (poseUpdate (controlsStep app) inp.frame).app inp := by
  unfold update
  simp [h]

theorem update_app_of_thrown (app : App) (inp : FrameInput) (e : JSError)
    (h : (poseUpdate (controlsStep app) inp.frame).thrown = some e) :
    (update app inp).app = (poseUpdate (controlsStep app) inp.frame).app := by
  unfold update
  simp [h]

/-- The state in which the pose update leaves the App, spelled out. -/
theorem poseUpdate_controlsStep_frame (app : App) (frame : Option XRFrame) :
    ∃ position n, (poseUpdate (controlsStep app) frame).app =
      { app with
        model := { app.model with position := position },
        log := (controlsStep app).log ++
          List.replicate n (.consoleLog "Model Pose updated from marker") } := by
  obtain ⟨position, n, h⟩ := poseUpdate_frame (controlsStep app) frame
  refine ⟨position, n, ?_⟩
  rw [h]
  unfold controlsStep
  split <;> simp [App.call]

/-- Recolouring a picked object touches the materials and the allocation counter only. -/
theorem recolorObject_frame (app : App) (obj : SceneObject) (random : Nat → ℚ) :
    (app.recolorObject obj random).xrEnabled = app.xrEnabled ∧
    (app.recolorObject obj random).xrPresenting = app.xrPresenting ∧
    (app.recolorObject obj random).model = app.model ∧
    (app.recolorObject obj random).children = app.children ∧
    (app.recolorObject obj random).pendingText = app.pendingText ∧
    (app.recolorObject obj random).timers = app.timers ∧
    (app.recolorObject obj random).now = app.now ∧
    (app.recolorObject obj random).log = app.log ∧
    app.nextRef ≤ (app.recolorObject obj random).nextRef := by
  unfold App.recolorObject
  simp

theorem lookup_call (app : App) (c : Call) (ref : Nat) :
    (app.call c).lookup ref = app.lookup ref := rfl

theorem pickStep_not_pressed (app : App) (inp : FrameInput)
    (hpress : inp.leftJustPressed = false) : pickStep app inp = app := by
  simp [pickStep, hpress]

theorem pickStep_empty (app : App) (inp : FrameInput)
    (hpress : inp.leftJustPressed = true) (hempty : inp.intersects = []) :
    pickStep app inp = app.call (.intersectObjects app.children) := by
  simp [pickStep, hpress, hempty]

theorem pickStep_miss (app : App) (inp : FrameInput) (hit : Nat) (rest : List Nat)
    (hpress : inp.leftJustPressed = true) (hint : inp.intersects = hit :: rest)
    (hobj : app.lookup hit = none) :
    pickStep app inp = app.call (.intersectObjects app.children) := by
  simp [pickStep, hpress, hint, lookup_call, hobj]

theorem pickStep_hit (app : App) (inp : FrameInput) (hit : Nat) (rest : List Nat)
    (obj : SceneObject)
    (hpress : inp.leftJustPressed = true) (hint : inp.intersects = hit :: rest)
    (hobj : app.lookup hit = some obj) :
    pickStep app inp =
      (createText ((app.call (.intersectObjects app.children)).call
          (.consoleLog "Object Properties:"))
        ("Name: " ++ jsToString obj.Name) ("Description: " ++ jsToString obj.Description)
        ⟨obj.position.x - 100, obj.position.y + 160, obj.position.z⟩
        ⟨obj.position.x - 100, obj.position.y + 140, obj.position.z⟩
        (some (.removeAfter 2000))).recolorObject obj inp.random := by
  simp [pickStep, hpress, hint, lookup_call, hobj]

/-- The picking step leaves the flags, the model, the scene children, the timers and the
clock alone, and never lowers the allocation counter. -/
theorem pickStep_frame (app : App) (inp : FrameInput) :
    (pickStep app inp).xrEnabled = app.xrEnabled ∧
    (pickStep app inp).xrPresenting = app.xrPresenting ∧
    (pickStep app inp).model = app.model ∧
    (pickStep app inp).children = app.children ∧
    (pickStep app inp).timers = app.timers ∧
    (pickStep app inp).now = app.now ∧
    app.nextRef ≤ (pickStep app inp).nextRef := by
  cases hpress : inp.leftJustPressed with
  | false => rw [pickStep_not_pressed app inp hpress]; simp
  | true =>
    cases hint : inp.intersects with
    | nil => rw [pickStep_empty app inp hpress hint]; simp [App.call]
    | cons hit rest =>
      cases hobj : app.lookup hit with
      | none => rw [pickStep_miss app inp hit rest hpress hint hobj]; simp [App.call]
      | some obj =>
        rw [pickStep_hit app inp hit rest obj hpress hint hobj]
        obtain ⟨h1, h2, h3, h4, -, h6, h7, -, h9⟩ := recolorObject_frame
          (createText ((app.call (.intersectObjects app.children)).call
              (.consoleLog "Object Properties:"))
            ("Name: " ++ jsToString obj.Name)
            ("Description: " ++ jsToString obj.Description)
            ⟨obj.position.x - 100, obj.position.y + 160, obj.position.z⟩
            ⟨obj.position.x - 100, obj.position.y + 140, obj.position.z⟩
            (some (.removeAfter 2000))) obj inp.random
        rw [h1, h2, h3, h4, h6, h7]
        exact ⟨rfl, rfl, rfl, rfl, rfl, rfl, h9⟩

/-- The frame callback leaves the flags, the scene children, the timers and the clock
alone, and never lowers the allocation counter. -/
theorem update_frame (app : App) (inp : FrameInput) :
    (update app inp).app.xrEnabled = app.xrEnabled ∧
    (update app inp).app.xrPresenting = app.xrPresenting ∧
    (update app inp).app.children = app.children ∧
    (update app inp).app.timers = app.timers ∧
    (update app inp).app.now = app.now ∧
    app.nextRef ≤ (update app inp).app.nextRef := by
  obtain ⟨position, n, hpose⟩ := poseUpdate_controlsStep_frame app inp.frame
  cases h : (poseUpdate (controlsStep app) inp.frame).thrown with
  | some e =>
    rw [update_app_of_thrown app inp e h, hpose]
    simp
  | none =>
    rw [update_app_of_ok app inp h, hpose]
    unfold inputPickRender
    simp only [App.call]
    obtain ⟨h1, h2, -, h4, h5, h6, h7⟩ := pickStep_frame
      { app with
        model := { app.model with position := position },
        log := (((((controlsStep app).log ++
          List.replicate n (.consoleLog "Model Pose updated from marker")) ++
          [.keyboardUpdate]) ++ [.mouseUpdate]) ++ [.touchUpdate]) ++
          [.setFromCamera (pointerX inp.mouseX inp.innerWidth)
            (pointerY inp.mouseY inp.innerHeight)] } inp
    exact ⟨h1, h2, h4, h5, h6, h7⟩

/-- The loop reads nothing of the state but the transform of the model. -/
theorem trackResults_congr (a b : App) (results : List XRImageTrackingResult)
    (h : a.model = b.model) :
    (trackResults a results).app.model = (trackResults b results).app.model ∧
    (trackResults a results).thrown = (trackResults b results).thrown := by
  induction results generalizing a b with
  | nil => exact ⟨h, rfl⟩
  | cons r rest ih =>
    by_cases hs : r.trackingState = "tracked"
    · cases hp : r.pose with
      | none =>
        rw [trackResults_cons_null _ _ _ hs hp, trackResults_cons_null _ _ _ hs hp]
        exact ⟨h, rfl⟩
      | some pose =>
        rw [trackResults_cons_tracked _ _ _ _ hs hp, trackResults_cons_tracked _ _ _ _ hs hp]
        exact ih _ _ (by simp [h])
    · rw [trackResults_cons_other _ _ _ hs, trackResults_cons_other _ _ _ hs]
      exact ih a b h

theorem controlsStep_model (app : App) : (controlsStep app).model = app.model := by
  unfold controlsStep
  split <;> rfl

theorem poseUpdate_controlsStep (app : App) (frame : Option XRFrame) :
    (poseUpdate (controlsStep app) frame).app.model = (poseUpdate app frame).app.model ∧
    (poseUpdate (controlsStep app) frame).thrown = (poseUpdate app frame).thrown := by
  cases frame with
  | none => exact ⟨controlsStep_model app, rfl⟩
  | some f => exact trackResults_congr _ _ f.results (controlsStep_model app)

/-- An exception leaves `update` exactly when the pose-update step throws. -/
theorem update_thrown_eq (app : App) (inp : FrameInput) :
    (update app inp).thrown = (poseUpdate app inp.frame).thrown := by
  rw [update_thrown, (poseUpdate_controlsStep app inp.frame).2]

theorem inputPickRender_model (app : App) (inp : FrameInput) :
    (inputPickRender app inp).model = app.model := by
  unfold inputPickRender
  simp only [App.call]
  exact (pickStep_frame _ inp).2.2.1

/-- The transform of the model after `update` is the one the pose-update step leaves. -/
theorem update_model (app : App) (inp : FrameInput) :
    (update app inp).app.model = (poseUpdate app inp.frame).app.model := by
  rw [← (poseUpdate_controlsStep app inp.frame).1]
  cases h : (poseUpdate (controlsStep app) inp.frame).thrown with
  | some e => rw [update_app_of_thrown app inp e h]
  | none => rw [update_app_of_ok app inp h, inputPickRender_model]

/-- The state after a frame whose pose update does not throw and whose pick finds
nothing. -/
theorem update_empty_pick_state (app : App) (inp : FrameInput)
    (hok : (update app inp).thrown = none)
    (hpress : inp.leftJustPressed = true) (hempty : inp.intersects = []) :
    ∃ position n, (update app inp).app =
      { app with
        model := { app.model with position := position },
        log := (controlsStep app).log ++
          List.replicate n (.consoleLog "Model Pose updated from marker") ++
          [.keyboardUpdate, .mouseUpdate, .touchUpdate,
           .setFromCamera (pointerX inp.mouseX inp.innerWidth)
             (pointerY inp.mouseY inp.innerHeight),
           .intersectObjects app.children, .render app.children] } := by
  rw [update_thrown] at hok
  obtain ⟨position, n, hpose⟩ := poseUpdate_controlsStep_frame app inp.frame
  refine ⟨position, n, ?_⟩
  rw [update_app_of_ok app inp hok, hpose]
  unfold inputPickRender
  simp only []
  rw [pickStep_empty _ inp hpress hempty]
  simp [App.call]

/-- The state after a frame whose pose update does not throw and whose pick hits an
object. -/
theorem update_hit_state (app : App) (inp : FrameInput) (hit : Nat) (rest : List Nat)
    (obj : SceneObject) (hok : (update app inp).thrown = none)
    (hpress : inp.leftJustPressed = true) (hint : inp.intersects = hit :: rest)
    (hobj : app.lookup hit = some obj) :
    (update app inp).app.pendingText = app.pendingText ++
      [⟨"Name: " ++ jsToString obj.Name, "Description: " ++ jsToString obj.Description,
        ⟨obj.position.x - 100, obj.position.y + 160, obj.position.z⟩,
        ⟨obj.position.x - 100, obj.position.y + 140, obj.position.z⟩,
        some (.removeAfter 2000)⟩] ∧
    (update app inp).app.objects = app.objects ∧
    (update app inp).app.materials =
      recolor app.nextRef inp.random obj.material app.materials ∧
    (update app inp).app.nextRef = app.nextRef + obj.material.colors := by
  rw [update_thrown] at hok
  obtain ⟨position, n, hpose⟩ := poseUpdate_controlsStep_frame app inp.frame
  rw [update_app_of_ok app inp hok, hpose]
  unfold inputPickRender
  simp only []
  rw [pickStep_hit _ inp hit rest obj hpress hint (by simpa [App.lookup, App.call] using hobj)]
  simp [App.call, createText, App.recolorObject]

theorem pickStep_log (app : App) (inp : FrameInput) :
    ∃ calls, (pickStep app inp).log = app.log ++ calls ∧ Call.controlsUpdate ∉ calls := by
  cases hpress : inp.leftJustPressed with
  | false => exact ⟨[], by rw [pickStep_not_pressed app inp hpress]; simp, by simp⟩
  | true =>
    cases hint : inp.intersects with
    | nil => exact ⟨_, by rw [pickStep_empty app inp hpress hint]; rfl, by simp⟩
    | cons hit rest =>
      cases hobj : app.lookup hit with
      | none =>
        exact ⟨_, by rw [pickStep_miss app inp hit rest hpress hint hobj]; rfl, by simp⟩
      | some obj =>
        rw [pickStep_hit app inp hit rest obj hpress hint hobj]
        rw [(recolorObject_frame _ obj inp.random).2.2.2.2.2.2.2.1]
        exact ⟨[.intersectObjects app.children, .consoleLog "Object Properties:",
          .fontLoad "assets/robotofont.json"], by simp [createText, App.call], by simp⟩

/-! ## Pointer normalisation -/

/-- The pointer computed at lines 311 and 312 is the one handed to the raycaster. -/
theorem inputPickRender_pointer (app : App) (inp : FrameInput) :
    Call.setFromCamera (pointerX inp.mouseX inp.innerWidth)
      (pointerY inp.mouseY inp.innerHeight) ∈ (inputPickRender app inp).log := by
  unfold inputPickRender
  simp only []
  obtain ⟨calls, hcalls, -⟩ := pickStep_log
    ((((app.call .keyboardUpdate).call .mouseUpdate).call .touchUpdate).call
      (.setFromCamera (pointerX inp.mouseX inp.innerWidth)
        (pointerY inp.mouseY inp.innerHeight))) inp
  simp only [App.call] at hcalls ⊢
  rw [hcalls]
  simp

/-- C1: for a viewport of positive width and height and a pointer position inside it,
the pointer that `update` computes and hands to the raycaster is
x = (px / width) * 2 - 1 and y = -(py / height) * 2 + 1; both components lie between
-1 and 1, and at the centre of the viewport the pointer is (0, 0). -/
theorem pointer_normalised (app : App) (inp : FrameInput)
    (hw : 0 < inp.innerWidth) (hh : 0 < inp.innerHeight)
    (hx0 : 0 ≤ inp.mouseX) (hx1 : inp.mouseX ≤ inp.innerWidth)
    (hy0 : 0 ≤ inp.mouseY) (hy1 : inp.mouseY ≤ inp.innerHeight) :
    ((update app inp).thrown = none →
      Call.setFromCamera ((inp.mouseX / inp.innerWidth) * 2 - 1)
        (-(inp.mouseY / inp.innerHeight) * 2 + 1) ∈ (update app inp).app.log) ∧
    pointerX inp.mouseX inp.innerWidth = (inp.mouseX / inp.innerWidth) * 2 - 1 ∧
    pointerY inp.mouseY inp.innerHeight = -(inp.mouseY / inp.innerHeight) * 2 + 1 ∧
    (-1 ≤ pointerX inp.mouseX inp.innerWidth ∧ pointerX inp.mouseX inp.innerWidth ≤ 1) ∧
    (-1 ≤ pointerY inp.mouseY inp.innerHeight ∧ pointerY inp.mouseY inp.innerHeight ≤ 1) ∧
    pointerX (inp.innerWidth / 2) inp.innerWidth = 0 ∧
    pointerY (inp.innerHeight / 2) inp.innerHeight = 0 := by
  have hyform : pointerY inp.mouseY inp.innerHeight =
      -(inp.mouseY / inp.innerHeight) * 2 + 1 := by
    unfold pointerY
    rw [neg_div]
  have hx : 0 ≤ inp.mouseX / inp.innerWidth ∧ inp.mouseX / inp.innerWidth ≤ 1 :=
    ⟨div_nonneg hx0 hw.le, (div_le_one hw).mpr hx1⟩
  have hy : 0 ≤ inp.mouseY / inp.innerHeight ∧ inp.mouseY / inp.innerHeight ≤ 1 :=
    ⟨div_nonneg hy0 hh.le, (div_le_one hh).mpr hy1⟩
  refine ⟨?_, rfl, hyform, ?_, ?_, ?_, ?_⟩
  · intro hok
    rw [update_thrown] at hok
    rw [update_app_of_ok app inp hok, ← hyform]
    exact inputPickRender_pointer _ inp
  · unfold pointerX
    constructor <;> linarith [hx.1, hx.2]
  · rw [hyform]
    constructor <;> linarith [hy.1, hy.2]
  · unfold pointerX
    field_simp
    ring
  · unfold pointerY
    field_simp
    ring

theorem pointer_normalised_witness :
    pointerX 200 800 = -(1 / 2) ∧ pointerY 150 600 = 1 / 2 ∧
    (-1 ≤ pointerX 200 800 ∧ pointerX 200 800 ≤ 1) :=
  have h := pointer_normalised App.new
    ⟨none, 200, 150, 800, 600, false, [], fun _ => 0⟩
    (by norm_num) (by norm_num) (by norm_num) (by norm_num) (by norm_num) (by norm_num)
  ⟨by rw [h.2.1]; norm_num, by rw [h.2.2.1]; norm_num, h.2.2.2.1⟩

/-- The bounds and the centre value of C1 survive rounding: when every operation of lines
311 and 312 is followed by a rounding that keeps the order and the constants, the
pointer still lies between -1 and 1 and is exactly (0, 0) at the centre. -/
theorem rounded_pointer_bounds (fl : ℚ → ℚ) (hfl : Rounding fl)
    (px py width height : ℚ) (hw : 0 < width) (hh : 0 < height)
    (hx0 : 0 ≤ px) (hx1 : px ≤ width) (hy0 : 0 ≤ py) (hy1 : py ≤ height) :
    (-1 ≤ pointerXRounded fl px width ∧ pointerXRounded fl px width ≤ 1) ∧
    (-1 ≤ pointerYRounded fl py height ∧ pointerYRounded fl py height ≤ 1) ∧
    pointerXRounded fl (width / 2) width = 0 ∧
    pointerYRounded fl (height / 2) height = 0 := by
  have hx : 0 ≤ px / width ∧ px / width ≤ 1 :=
    ⟨div_nonneg hx0 hw.le, (div_le_one hw).mpr hx1⟩
  have hy : -1 ≤ -py / height ∧ -py / height ≤ 0 := by
    rw [neg_div]
    have h1 : 0 ≤ py / height := div_nonneg hy0 hh.le
    have h2 : py / height ≤ 1 := (div_le_one hh).mpr hy1
    constructor <;> linarith
  have a1 : 0 ≤ fl (px / width) := by
    have := hfl.mono _ _ hx.1
    rwa [hfl.zero] at this
  have a2 : fl (px / width) ≤ 1 := by
    have := hfl.mono _ _ hx.2
    rwa [hfl.one] at this
  have a3 : 0 ≤ fl (fl (px / width) * 2) := by
    have := hfl.mono 0 (fl (px / width) * 2) (by linarith)
    rwa [hfl.zero] at this
  have a4 : fl (fl (px / width) * 2) ≤ 2 := by
    have := hfl.mono (fl (px / width) * 2) 2 (by linarith)
    rwa [hfl.two] at this
  have b1 : -1 ≤ fl (-py / height) := by
    have := hfl.mono _ _ hy.1
    rwa [hfl.neg_one] at this
  have b2 : fl (-py / height) ≤ 0 := by
    have := hfl.mono _ _ hy.2
    rwa [hfl.zero] at this
  have b3 : -2 ≤ fl (fl (-py / height) * 2) := by
    have := hfl.mono (-2) (fl (-py / height) * 2) (by linarith)
    rwa [hfl.neg_two] at this
  have b4 : fl (fl (-py / height) * 2) ≤ 0 := by
    have := hfl.mono (fl (-py / height) * 2) 0 (by linarith)
    rwa [hfl.zero] at this
  refine ⟨⟨?_, ?_⟩, ⟨?_, ?_⟩, ?_, ?_⟩
  · have := hfl.mono (-1) (fl (fl (px / width) * 2) - 1) (by linarith)
    rwa [hfl.neg_one] at this
  · have := hfl.mono (fl (fl (px / width) * 2) - 1) 1 (by linarith)
    rwa [hfl.one] at this
  · have := hfl.mono (-1) (fl (fl (-py / height) * 2) + 1) (by linarith)
    rwa [hfl.neg_one] at this
  · have := hfl.mono (fl (fl (-py / height) * 2) + 1) 1 (by linarith)
    rwa [hfl.one] at this
  · have hc : width / 2 / width = 1 / 2 := by field_simp; ring
    unfold pointerXRounded
    rw [hc, hfl.half]
    norm_num [hfl.one, hfl.zero]
  · have hc : -(height / 2) / height = -(1 / 2) := by field_simp; ring
    unfold pointerYRounded
    rw [hc, hfl.neg_half]
    norm_num [hfl.neg_one, hfl.zero]

theorem rounded_pointer_bounds_witness :
    pointerXRounded id (800 / 2) 800 = 0 ∧ pointerYRounded id (600 / 2) 600 = 0 :=
  (rounded_pointer_bounds id
    ⟨fun _ _ h => h, rfl, rfl, rfl, rfl, rfl, rfl, rfl⟩ 200 150 800 600
    (by norm_num) (by norm_num) (by norm_num) (by norm_num) (by norm_num)
    (by norm_num)).2.2

/-! ## Malformed pose data -/

/-- C10 (as amended): the pose-update step does not validate the pose matrix.  For a
tracked result whose matrix array has fewer than 16 entries nothing is thrown, neither by
the step nor by `update`; the position of the model is overwritten with entries 12, 13
and 14 of the array, a missing entry giving an undefined component (all three are
undefined for an array of at most 12 entries); orientation and scale are kept. -/
theorem short_matrix_is_applied (app : App) (inp : FrameInput)
    (r : XRImageTrackingResult) (pose : XRPose)
    (hs : r.trackingState = "tracked") (hp : r.pose = some pose)
    (hlen : pose.matrix.length < 16) (hframe : inp.frame = some ⟨[r]⟩) :
    (poseUpdate app inp.frame).thrown = none ∧
    (update app inp).thrown = none ∧
    (update app inp).app.model =
      { app.model with position := ⟨pose.matrix[12]?, pose.matrix[13]?, pose.matrix[14]?⟩ } ∧
    (pose.matrix.length ≤ 12 →
      (update app inp).app.model.position = ⟨none, none, none⟩) := by
  have hstep : poseUpdate app inp.frame =
      ⟨{ app.call (.consoleLog "Model Pose updated from marker") with
          model := { app.model with position := positionOf pose.matrix } }, none⟩ := by
    rw [hframe]
    simp only [poseUpdate]
    rw [trackResults_cons_tracked _ _ _ _ hs hp]
    rfl
  have hmodel : (update app inp).app.model =
      { app.model with position := ⟨pose.matrix[12]?, pose.matrix[13]?, pose.matrix[14]?⟩ } := by
    rw [update_model, hstep]
    rfl
  refine ⟨by rw [hstep], by rw [update_thrown_eq, hstep], hmodel, ?_⟩
  intro h12
  rw [hmodel]
  have e12 : pose.matrix[12]? = none := List.getElem?_eq_none (by omega)
  have e13 : pose.matrix[13]? = none := List.getElem?_eq_none (by omega)
  have e14 : pose.matrix[14]? = none := List.getElem?_eq_none (by omega)
  simp only [e12, e13, e14]

theorem short_matrix_is_applied_witness :
    (update App.new ⟨some ⟨[⟨"tracked", some ⟨[1, 2, 3]⟩⟩]⟩, 0, 0, 800, 600, false, [],
      fun _ => 0⟩).app.model.position = ⟨none, none, none⟩ :=
  (short_matrix_is_applied App.new
    ⟨some ⟨[⟨"tracked", some ⟨[1, 2, 3]⟩⟩]⟩, 0, 0, 800, 600, false, [], fun _ => 0⟩
    ⟨"tracked", some ⟨[1, 2, 3]⟩⟩ ⟨[1, 2, 3]⟩ rfl rfl (by decide) rfl).2.2.2 (by decide)

/-- C10 (as stated) fails: a tracked result whose matrix array has three entries makes
neither the pose-update step nor `update` throw, and the transform of the model does not
keep its prior value: its position becomes undefined in all three components. -/
theorem short_matrix_not_rejected :
    (poseUpdate App.new (some ⟨[⟨"tracked", some ⟨[1, 2, 3]⟩⟩]⟩)).thrown = none ∧
    (update App.new ⟨some ⟨[⟨"tracked", some ⟨[1, 2, 3]⟩⟩]⟩, 0, 0, 800, 600, false, [],
      fun _ => 0⟩).thrown = none ∧
    (poseUpdate App.new (some ⟨[⟨"tracked", some ⟨[1, 2, 3]⟩⟩]⟩)).app.model ≠
      App.new.model ∧
    (poseUpdate App.new (some ⟨[⟨"tracked", some ⟨[1, 2, 3]⟩⟩]⟩)).app.model.position =
      ⟨none, none, none⟩ := by
  have hstep : poseUpdate App.new (some ⟨[⟨"tracked", some ⟨[1, 2, 3]⟩⟩]⟩) =
      ⟨{ App.new.call (.consoleLog "Model Pose updated from marker") with
          model := { App.new.model with position := positionOf [1, 2, 3] } }, none⟩ := by
    simp only [poseUpdate]
    rw [trackResults_cons_tracked _ _ _ ⟨[1, 2, 3]⟩ rfl rfl]
    rfl
  refine ⟨by rw [hstep], by rw [update_thrown_eq, hstep], ?_, by rw [hstep]; rfl⟩
  rw [hstep]
  decide

/-! ## Orbit controls -/

/-- C5 (evaluation at the failing input): right after the constructor no session is
presenting, yet one call of `update` with no frame makes exactly the calls listed here,
and `controls.update` is not among them. -/
theorem update_after_constructor_skips_controls :
    App.new.xrPresenting = false ∧
    (update App.new ⟨none, 400, 300, 800, 600, false, [], fun _ => 0⟩).app.log =
      [.keyboardUpdate, .mouseUpdate, .touchUpdate, .setFromCamera 0 0,
       .render [0, 1, 2, 3]] ∧
    Call.controlsUpdate ∉
      (update App.new ⟨none, 400, 300, 800, 600, false, [], fun _ => 0⟩).app.log := by
  have hlog : (update App.new ⟨none, 400, 300, 800, 600, false, [], fun _ => 0⟩).app.log =
      [.keyboardUpdate, .mouseUpdate, .touchUpdate, .setFromCamera 0 0,
       .render [0, 1, 2, 3]] := by
    have hx : pointerX 400 800 = 0 := by norm_num [pointerX]
    have hy : pointerY 300 600 = 0 := by norm_num [pointerY]
    rw [update_app_of_ok App.new ⟨none, 400, 300, 800, 600, false, [], fun _ => 0⟩ rfl]
    simp only [inputPickRender]
    rw [pickStep_not_pressed _ _ rfl, hx, hy]
    rfl
  refine ⟨rfl, hlog, ?_⟩
  rw [hlog]
  decide

/-! ## Picking -/

/-- C6: when the left button was just pressed and the intersection list is empty (and
every tracked result of the frame, if any, carries a pose), `update` throws nothing;
no annotation is requested and no timer is scheduled, no object and no material (hence
no colour) is changed, the children of the scene are unchanged, and the calls made end with the render of the
unchanged scene. -/
theorem empty_pick_is_harmless (app : App) (inp : FrameInput)
    (hpress : inp.leftJustPressed = true) (hempty : inp.intersects = [])
    (hposes : ∀ f, inp.frame = some f →
      ∀ r ∈ f.results, r.trackingState = "tracked" → r.pose ≠ none) :
    (update app inp).thrown = none ∧
    (update app inp).app.pendingText = app.pendingText ∧
    (update app inp).app.timers = app.timers ∧
    (update app inp).app.objects = app.objects ∧
    (update app inp).app.materials = app.materials ∧
    (update app inp).app.children = app.children ∧
    ∃ calls, (update app inp).app.log = app.log ++ calls ∧
      (∀ url, Call.fontLoad url ∉ calls) ∧ (∀ delay, Call.setTimeout delay ∉ calls) ∧
      calls.getLast? = some (.render app.children) := by
  have hok : (update app inp).thrown = none := by
    rw [update_thrown_eq]
    cases hf : inp.frame with
    | none => rfl
    | some f => exact trackResults_not_thrown app f.results (hposes f hf)
  obtain ⟨position, n, hstate⟩ := update_empty_pick_state app inp hok hpress hempty
  refine ⟨hok, by rw [hstate], by rw [hstate], by rw [hstate], by rw [hstate],
    by rw [hstate], ?_⟩
  rw [hstate]
  refine ⟨(if app.xrEnabled then [] else [.controlsUpdate]) ++
      List.replicate n (.consoleLog "Model Pose updated from marker") ++
      [.keyboardUpdate, .mouseUpdate, .touchUpdate,
       .setFromCamera (pointerX inp.mouseX inp.innerWidth)
         (pointerY inp.mouseY inp.innerHeight),
       .intersectObjects app.children, .render app.children], ?_, ?_, ?_, ?_⟩
  · unfold controlsStep
    cases app.xrEnabled <;> simp [App.call]
  · intro url
    cases app.xrEnabled <;> simp [List.mem_replicate]
  · intro delay
    cases app.xrEnabled <;> simp [List.mem_replicate]
  · rw [List.getLast?_append]
    simp

theorem empty_pick_is_harmless_witness :
    (update App.new ⟨none, 400, 300, 800, 600, true, [], fun _ => 0⟩).thrown = none ∧
    (update App.new ⟨none, 400, 300, 800, 600, true, [], fun _ => 0⟩).app.children =
      [0, 1, 2, 3] :=
  have h := empty_pick_is_harmless App.new
    ⟨none, 400, 300, 800, 600, true, [], fun _ => 0⟩ rfl rfl (by intro f hf; cases hf)
  ⟨h.1, h.2.2.2.2.2.1⟩

/-- C7: for the object of the first hit of a just-pressed frame, `update` requests one
annotation whose primary text is Name: followed by the `Name` property of the object and
whose secondary text is Description: followed by its `Description` property, a missing
property being rendered as the text undefined; nothing is thrown.  For the name Wall-12
and no description the texts are Name: Wall-12 and Description: undefined. -/
theorem pick_requests_label (app : App) (inp : FrameInput) (hit : Nat)
    (rest : List Nat) (obj : SceneObject)
    (hok : (update app inp).thrown = none)
    (hpress : inp.leftJustPressed = true) (hint : inp.intersects = hit :: rest)
    (hobj : app.lookup hit = some obj) :
    (∃ req, (update app inp).app.pendingText = app.pendingText ++ [req] ∧
      req.nametext = "Name: " ++ (match obj.Name with
        | some text => text
        | none => "undefined") ∧
      req.manuftext = "Description: " ++ (match obj.Description with
        | some text => text
        | none => "undefined") ∧
      req.onLoad = some (.removeAfter 2000)) ∧
    (obj.Name = some "Wall-12" → obj.Description = none →
      ∃ req, (update app inp).app.pendingText = app.pendingText ++ [req] ∧
        req.nametext = "Name: Wall-12" ∧ req.manuftext = "Description: undefined") := by
  have h := (update_hit_state app inp hit rest obj hok hpress hint hobj).1
  refine ⟨⟨_, h, ?_, ?_, rfl⟩, ?_⟩
  · cases obj.Name <;> rfl
  · cases obj.Description <;> rfl
  · intro hn hd
    refine ⟨_, h, ?_, ?_⟩
    · simp only [hn, jsToString]
      decide
    · simp only [hd, jsToString]
      decide

theorem pick_requests_label_witness :
    ∃ req,
      (update { App.new with objects := [⟨7, "", some "Wall-12", none, ⟨0, 0, 0⟩, .other⟩] }
        ⟨none, 400, 300, 800, 600, true, [7], fun _ => 0⟩).app.pendingText = [] ++ [req] ∧
      req.nametext = "Name: Wall-12" ∧ req.manuftext = "Description: undefined" :=
  (pick_requests_label
    { App.new with objects := [⟨7, "", some "Wall-12", none, ⟨0, 0, 0⟩, .other⟩] }
    ⟨none, 400, 300, 800, 600, true, [7], fun _ => 0⟩ 7 []
    ⟨7, "", some "Wall-12", none, ⟨0, 0, 0⟩, .other⟩ rfl rfl rfl (by decide)).2 rfl rfl

/-- The three.js property `name` is not what the label shows: an object whose `name` is
Wall-12 but which has no `Name` property is labelled Name: undefined. -/
theorem lowercase_name_is_not_read :
    ∃ req,
      (update { App.new with objects := [⟨7, "Wall-12", none, none, ⟨0, 0, 0⟩, .other⟩] }
        ⟨none, 400, 300, 800, 600, true, [7], fun _ => 0⟩).app.pendingText = [req] ∧
      req.nametext = "Name: undefined" := by
  have h := (update_hit_state
    { App.new with objects := [⟨7, "Wall-12", none, none, ⟨0, 0, 0⟩, .other⟩] }
    ⟨none, 400, 300, 800, 600, true, [7], fun _ => 0⟩ 7 []
    ⟨7, "Wall-12", none, none, ⟨0, 0, 0⟩, .other⟩ rfl rfl rfl (by decide)).1
  exact ⟨_, h, by decide⟩

/-! ## Recolouring -/

theorem roundHalfEven_near (n : ℚ) (z : ℤ) (h1 : (z : ℚ) - 1 / 2 < n)
    (h2 : n < (z : ℚ) + 1 / 2) : roundHalfEven n = z := by
  unfold roundHalfEven
  by_cases hlt : n < (z : ℚ)
  · have hfloor : ⌊n⌋ = z - 1 := by
      rw [Int.floor_eq_iff]
      push_cast
      constructor <;> linarith
    rw [hfloor]
    push_cast
    rw [if_neg (by linarith), if_pos (by linarith)]
    ring
  · have hfloor : ⌊n⌋ = z := by
      rw [Int.floor_eq_iff]
      constructor <;> linarith
    rw [hfloor, if_pos (by linarith)]

/-- The value of `roundDouble` for a result between two consecutive powers of two. -/
theorem roundDouble_eq (q : ℚ) (e : ℤ) (hlo : (2 : ℚ) ^ e ≤ q) (hhi : q < (2 : ℚ) ^ (e + 1)) :
    roundDouble q = roundHalfEven (q / 2 ^ (e - 52)) * 2 ^ (e - 52) := by
  have hpos : 0 < q := lt_of_lt_of_le (by positivity) hlo
  have hlog : Int.log 2 q = e := by
    have h1 : e ≤ Int.log 2 q := by
      rw [← Int.zpow_le_iff_le_log (by norm_num) hpos]
      simpa using hlo
    have h2 : Int.log 2 q < e + 1 := by
      rw [← Int.lt_zpow_iff_log_lt (by norm_num) hpos]
      simpa using hhi
    omega
  unfold roundDouble
  rw [if_neg (by linarith), hlog]

theorem roundDouble_zero : roundDouble 0 = 0 := by
  simp [roundDouble]

/-- The double product for the draw one half is exact. -/
theorem roundDouble_half : ⌊roundDouble (0xFFFFFF * (1 / 2))⌋ = 8388607 := by
  rw [roundDouble_eq _ 22 (by norm_num) (by norm_num),
    roundHalfEven_near _ 9007198717870080 (by norm_num) (by norm_num), Int.floor_eq_iff]
  norm_num

/-- The double product for the double nearest to 1 / 16777215 is 1, although the exact
product is below 1. -/
theorem roundDouble_inexact :
    ⌊roundDouble (0xFFFFFF * (281474993487873 / 2 ^ 72))⌋ = 1 ∧
    ⌊(0xFFFFFF * (281474993487873 / 2 ^ 72) : ℚ)⌋ = 0 := by
  constructor
  · rw [roundDouble_eq _ (-1) (by norm_num) (by norm_num),
      roundHalfEven_near _ 9007199254740992 (by norm_num) (by norm_num), Int.floor_eq_iff]
    norm_num
  · rw [Int.floor_eq_iff]
    norm_num

/-- Looking a material up after an assignment to the colour of the material `u`. -/
theorem find?_setColor (materials : List Material) (u v : Nat) (c : Color) :
    (setColor materials u c).find? (fun m => decide (m.uuid = v)) =
      (materials.find? (fun m => decide (m.uuid = v))).map
        (fun m => if m.uuid = u then { m with color := c } else m) := by
  unfold setColor
  rw [List.find?_map]
  have hp : ((fun m : Material => decide (m.uuid = v)) ∘
      fun m => if m.uuid = u then { m with color := c } else m) =
      fun m : Material => decide (m.uuid = v) := by
    funext m
    simp only [Function.comp]
    split <;> rfl
  rw [hp]

theorem find?_setColor_same (materials : List Material) (v : Nat) (c : Color)
    (mat : Material) (h : materials.find? (fun m => decide (m.uuid = v)) = some mat) :
    (setColor materials v c).find? (fun m => decide (m.uuid = v)) = some ⟨mat.uuid, c⟩ := by
  have hv : mat.uuid = v := by simpa using List.find?_some h
  rw [find?_setColor, h]
  simp [hv]

theorem find?_setColor_other (materials : List Material) (u v : Nat) (c : Color)
    (h : v ≠ u) :
    (setColor materials u c).find? (fun m => decide (m.uuid = v)) =
      materials.find? (fun m => decide (m.uuid = v)) := by
  rw [find?_setColor]
  cases hf : materials.find? (fun m => decide (m.uuid = v)) with
  | none => rfl
  | some mat =>
    have hv : mat.uuid = v := by simpa using List.find?_some hf
    have : mat.uuid ≠ u := by rw [hv]; exact h
    simp [this]

/-- The loop leaves alone every material that the list does not hold. -/
theorem recolorArray_find_other (next : Nat) (random : Nat → ℚ) (m : Nat)
    (us : List Nat) (materials : List Material) (v : Nat) (hv : v ∉ us) :
    (recolorArray next random m us materials).find? (fun x => decide (x.uuid = v)) =
      materials.find? (fun x => decide (x.uuid = v)) := by
  induction us generalizing m materials with
  | nil => rfl
  | cons u rest ih =>
    simp only [List.mem_cons, not_or] at hv
    simp only [recolorArray]
    rw [ih _ _ hv.2, find?_setColor_other _ _ _ _ hv.1]

/-- A material held by the list ends the loop with the colour assigned at the last
position that holds it. -/
theorem recolorArray_find_last (next : Nat) (random : Nat → ℚ) (m : Nat)
    (us : List Nat) (materials : List Material) (k v : Nat) (mat : Material)
    (hk : us[k]? = some v) (hlast : ∀ j, k < j → us[j]? ≠ some v)
    (hmat : materials.find? (fun x => decide (x.uuid = v)) = some mat) :
    (recolorArray next random m us materials).find? (fun x => decide (x.uuid = v)) =
      some ⟨mat.uuid, randomColor (next + (m + k)) (random (m + k))⟩ := by
  induction us generalizing m k materials mat with
  | nil => simp at hk
  | cons u rest ih =>
    simp only [recolorArray]
    cases k with
    | zero =>
      simp at hk
      subst hk
      have hnot : u ∉ rest := by
        intro hmem
        obtain ⟨i, hi⟩ := List.mem_iff_getElem?.mp hmem
        exact hlast (i + 1) (by omega) (by simpa using hi)
      rw [recolorArray_find_other _ _ _ _ _ _ hnot, find?_setColor_same _ _ _ _ hmat]
      simp
    | succ k =>
      simp at hk
      have hlast' : ∀ j, k < j → rest[j]? ≠ some v := by
        intro j hj
        have := hlast (j + 1) (by omega)
        simpa using this
      have hmat' : (setColor materials u (randomColor (next + m) (random m))).find?
          (fun x => decide (x.uuid = v)) =
          some (if mat.uuid = u then
            { mat with color := randomColor (next + m) (random m) } else mat) := by
        rw [find?_setColor, hmat]
        rfl
      rw [ih (m + 1) _ k _ hk hlast' hmat']
      have e : m + 1 + k = m + (k + 1) := by omega
      rw [e]
      split <;> rfl

/-- C8 (as amended): the recolour step treats both material shapes alike and leaves the
picked object and the order and length of its material list as they are.  A single
material is assigned a newly created colour whose value is the floor of the double
product 0xFFFFFF * r for the first draw r.  For a material list, position k is assigned
a newly created colour whose value is the floor of the double product for draw k; the
assignments go to the material objects in list order, so that a material ends with the
colour of the last position that holds it, which is its own position when the list
holds no material twice.  Materials that the object does not hold keep their colour. -/
theorem recolor_all_materials (app : App) (inp : FrameInput) (hit : Nat)
    (rest : List Nat) (obj : SceneObject)
    (hok : (update app inp).thrown = none)
    (hpress : inp.leftJustPressed = true) (hint : inp.intersects = hit :: rest)
    (hobj : app.lookup hit = some obj) :
    (update app inp).app.objects = app.objects ∧
    (∀ u mat, obj.material = .single u → app.material u = some mat →
      (update app inp).app.material u =
        some ⟨mat.uuid, ⟨app.nextRef, ⌊roundDouble (0xFFFFFF * inp.random 0)⌋⟩⟩) ∧
    (∀ us, obj.material = .array us → ∀ k u mat, us[k]? = some u →
      (∀ j, k < j → us[j]? ≠ some u) → app.material u = some mat →
      (update app inp).app.material u =
        some ⟨mat.uuid, ⟨app.nextRef + k, ⌊roundDouble (0xFFFFFF * inp.random k)⌋⟩⟩) ∧
    (∀ us, obj.material = .array us → us.Nodup → ∀ k u mat, us[k]? = some u →
      app.material u = some mat →
      (update app inp).app.material u =
        some ⟨mat.uuid, ⟨app.nextRef + k, ⌊roundDouble (0xFFFFFF * inp.random k)⌋⟩⟩) ∧
    (∀ v, v ∉ obj.material.refs → (update app inp).app.material v = app.material v) := by
  obtain ⟨-, hobjects, hmaterials, -⟩ :=
    update_hit_state app inp hit rest obj hok hpress hint hobj
  have harray : ∀ us, obj.material = .array us → ∀ k u mat, us[k]? = some u →
      (∀ j, k < j → us[j]? ≠ some u) → app.material u = some mat →
      (update app inp).app.material u =
        some ⟨mat.uuid, ⟨app.nextRef + k, ⌊roundDouble (0xFFFFFF * inp.random k)⌋⟩⟩ := by
    intro us hus k u mat hk hlast hmat
    unfold App.material at hmat ⊢
    rw [hmaterials, hus]
    simp only [recolor]
    rw [recolorArray_find_last _ _ 0 us _ k u mat hk hlast hmat]
    simp [randomColor]
  refine ⟨hobjects, ?_, harray, ?_, ?_⟩
  · intro u mat hu hmat
    unfold App.material at hmat ⊢
    rw [hmaterials, hu]
    simp only [recolor]
    rw [find?_setColor_same _ _ _ _ hmat]
    rfl
  · intro us hus hnd k u mat hk hmat
    refine harray us hus k u mat hk ?_ hmat
    intro j hj hc
    have hjlt : j < us.length := by
      rcases List.getElem?_eq_some_iff.mp hc with ⟨h, -⟩
      exact h
    exact List.nodup_iff_getElem?_ne_getElem?.mp hnd k j hj hjlt (by rw [hk, hc])
  · intro v hv
    unfold App.material
    rw [hmaterials]
    cases hm : obj.material with
    | single u =>
      rw [hm] at hv
      simp only [MaterialSlot.refs, List.mem_singleton] at hv
      simp only [recolor]
      exact find?_setColor_other _ _ _ _ hv
    | array us =>
      rw [hm] at hv
      simp only [recolor]
      exact recolorArray_find_other _ _ _ _ _ _ hv
    | other => rfl

theorem recolor_all_materials_witness :
    (update exampleThree (pickWith fun k =>
        if k = 1 then 1 / 2 else if k = 2 then 281474993487873 / 2 ^ 72 else 0)).app.material
        22 = some ⟨22, ⟨5, 8388607⟩⟩ ∧
    (update exampleThree (pickWith fun k =>
        if k = 1 then 1 / 2 else if k = 2 then 281474993487873 / 2 ^ 72 else 0)).app.material
        24 = some ⟨24, ⟨6, 1⟩⟩ := by
  have h := (recolor_all_materials exampleThree (pickWith fun k =>
      if k = 1 then 1 / 2 else if k = 2 then 281474993487873 / 2 ^ 72 else 0) 7 []
    ⟨7, "", none, none, ⟨0, 0, 0⟩, .array [20, 22, 24]⟩ rfl rfl rfl (by decide)).2.2.2.1
    [20, 22, 24] rfl (by decide)
  have h1 := h 1 22 ⟨22, ⟨23, 255⟩⟩ rfl rfl
  have h2 := h 2 24 ⟨24, ⟨25, 0⟩⟩ rfl rfl
  simp only [pickWith, if_pos, if_neg, OfNat.ofNat_ne_one, ↓reduceIte] at h1 h2
  rw [roundDouble_half] at h1
  rw [roundDouble_inexact.1] at h2
  exact ⟨h1, h2⟩

/-- C8 (as stated) fails twice.  When the material list of the picked object holds the
same material object at both positions, the colour of position 0 after the step is the
one of draw 1 (8388607 for the draw one half), not the one of its own draw 0 (which is
0).  When the single material of the picked object is black and the draw is 0, the new
colour has the value 0 of the prior colour. -/
theorem recolor_shared_or_same_value :
    (update exampleShared (pickWith fun k => if k = 1 then 1 / 2 else 0)).app.material 20 =
      some ⟨20, ⟨5, 8388607⟩⟩ ∧
    ⌊roundDouble (0xFFFFFF * (fun k : Nat => if k = 1 then (1 / 2 : ℚ) else 0) 0)⌋ = 0 ∧
    exampleBlack.material 20 = some ⟨20, ⟨21, 0⟩⟩ ∧
    (update exampleBlack (pickWith fun _ => 0)).app.material 20 = some ⟨20, ⟨4, 0⟩⟩ := by
  refine ⟨?_, by simp [roundDouble_zero], rfl, ?_⟩
  · have hm := (update_hit_state exampleShared (pickWith fun k => if k = 1 then 1 / 2 else 0)
      7 [] ⟨7, "", none, none, ⟨0, 0, 0⟩, .array [20, 20]⟩ rfl rfl rfl (by decide)).2.2.1
    unfold App.material
    rw [hm]
    simp only [recolor]
    rw [recolorArray_find_last _ _ 0 [20, 20] exampleShared.materials 1 20 ⟨20, ⟨21, 255⟩⟩ rfl
      (by intro j hj; rw [List.getElem?_eq_none (by simp; omega)]; simp) rfl]
    simp only [randomColor, pickWith, ↓reduceIte]
    rw [roundDouble_half]
    rfl
  · have hm := (update_hit_state exampleBlack (pickWith fun _ => 0)
      7 [] ⟨7, "", none, none, ⟨0, 0, 0⟩, .single 20⟩ rfl rfl rfl (by decide)).2.2.1
    unfold App.material
    rw [hm]
    simp only [recolor]
    rw [find?_setColor_same exampleBlack.materials 20 _ ⟨20, ⟨21, 0⟩⟩ rfl]
    simp [randomColor, pickWith, roundDouble_zero, exampleBlack, App.new]

/-! ## Annotation lifetime -/

/-- What the font callback does to the scene bookkeeping. -/
theorem fontCallback_state (app : App) (req : TextRequest) :
    (fontCallback app req).children =
      app.children ++ [app.nextRef + 4, app.nextRef + 9] ∧
    (fontCallback app req).nextRef = app.nextRef + 10 ∧
    (fontCallback app req).now = app.now ∧
    (fontCallback app req).xrEnabled = app.xrEnabled ∧
    (fontCallback app req).timers = app.timers ++
      (match req.onLoad with
        | some (.removeAfter delay) => [⟨app.now + delay, app.nextRef + 4, app.nextRef + 9⟩]
        | none => []) := by
  unfold fontCallback
  cases req.onLoad with
  | none => simp [App.sceneAdd, newTextMesh]
  | some cb =>
    cases cb with
    | removeAfter delay =>
      simp [OnLoad.run, App.setTimeout, App.sceneAdd, App.call, newTextMesh]

/-- What a run of timeout callbacks does: it removes from the children of the scene the
meshes of the timers run, and nothing else. -/
theorem foldl_fireTimer (due : List Timer) (app : App) :
    (due.foldl fireTimer app).now = app.now ∧
    (due.foldl fireTimer app).timers = app.timers ∧
    (due.foldl fireTimer app).nextRef = app.nextRef ∧
    (due.foldl fireTimer app).xrEnabled = app.xrEnabled ∧
    (app.children.Nodup → (due.foldl fireTimer app).children.Nodup ∧
      ∀ c, c ∈ (due.foldl fireTimer app).children ↔
        c ∈ app.children ∧ ∀ t ∈ due, c ≠ t.nameMesh ∧ c ≠ t.manufMesh) := by
  induction due generalizing app with
  | nil => simp
  | cons t rest ih =>
    obtain ⟨h1, h2, h3, h4, h5⟩ := ih (fireTimer app t)
    simp only [List.foldl_cons]
    refine ⟨h1, h2, h3, h4, ?_⟩
    intro hnd
    have hnd1 : (app.children.erase t.nameMesh).Nodup := hnd.erase _
    have hnd2 : (fireTimer app t).children.Nodup := hnd1.erase _
    obtain ⟨h6, h7⟩ := h5 hnd2
    refine ⟨h6, ?_⟩
    intro c
    rw [h7]
    have hmem : c ∈ (fireTimer app t).children ↔
        c ∈ app.children ∧ c ≠ t.nameMesh ∧ c ≠ t.manufMesh := by
      show c ∈ (app.children.erase t.nameMesh).erase t.manufMesh ↔ _
      rw [hnd1.mem_erase_iff, hnd.mem_erase_iff]
      tauto
    rw [hmem]
    simp only [List.mem_cons, forall_eq_or_imp]
    tauto

/-- The state after one millisecond. -/
theorem tick_state (app : App) :
    (tick app).now = app.now + 1 ∧
    (tick app).timers = app.timers.filter (fun t => !decide (t.due ≤ app.now + 1)) ∧
    (tick app).nextRef = app.nextRef ∧
    (tick app).xrEnabled = app.xrEnabled ∧
    (app.children.Nodup → (tick app).children.Nodup ∧
      ∀ c, c ∈ (tick app).children ↔
        c ∈ app.children ∧
          ∀ t ∈ app.timers, t.due ≤ app.now + 1 → c ≠ t.nameMesh ∧ c ≠ t.manufMesh) := by
  obtain ⟨h1, h2, h3, h4, h5⟩ := foldl_fireTimer
    (app.timers.filter (fun t => decide (t.due ≤ app.now + 1)))
    { app with now := app.now + 1,
               timers := app.timers.filter (fun t => !decide (t.due ≤ app.now + 1)) }
  refine ⟨h1, h2, h3, h4, ?_⟩
  intro hnd
  obtain ⟨h6, h7⟩ := h5 hnd
  refine ⟨h6, ?_⟩
  intro c
  have := h7 c
  simp only [List.mem_filter, decide_eq_true_eq, and_imp] at this
  exact this

/-- Every event keeps the scene bookkeeping well formed. -/
theorem wf_step (app : App) (e : Event) (h : WF app) : WF (step app e) := by
  obtain ⟨hnd, hch, htm⟩ := h
  cases e with
  | update inp =>
    obtain ⟨-, -, h3, h4, -, h6⟩ := update_frame app inp
    simp only [step]
    refine ⟨by rw [h3]; exact hnd, ?_, ?_⟩
    · rw [h3]
      intro c hc
      exact lt_of_lt_of_le (hch c hc) h6
    · rw [h4]
      intro t ht
      exact ⟨lt_of_lt_of_le (htm t ht).1 h6, lt_of_lt_of_le (htm t ht).2 h6⟩
  | fontLoaded i =>
    simp only [step]
    cases hreq : app.pendingText[i]? with
    | none => exact ⟨hnd, hch, htm⟩
    | some req =>
      obtain ⟨h1, h2, -, -, h5⟩ := fontCallback_state
        { app with pendingText := app.pendingText.eraseIdx i } req
      simp only at h1 h2 h5 ⊢
      refine ⟨?_, ?_, ?_⟩
      · rw [h1, List.nodup_append]
        refine ⟨hnd, by simp, ?_⟩
        intro c hc hc'
        have := hch c hc
        simp at hc'
        omega
      · rw [h1, h2]
        intro c hc
        rw [List.mem_append] at hc
        rcases hc with hc | hc
        · have := hch c hc
          omega
        · simp at hc
          omega
      · rw [h5, h2]
        intro t ht
        rw [List.mem_append] at ht
        rcases ht with ht | ht
        · have := htm t ht
          omega
        · cases hcb : req.onLoad with
          | none => simp [hcb] at ht
          | some cb =>
            cases cb with
            | removeAfter delay =>
              simp [hcb] at ht
              subst ht
              simp
  | tick =>
    obtain ⟨-, h2, h3, -, h5⟩ := tick_state app
    obtain ⟨h6, h7⟩ := h5 hnd
    simp only [step]
    refine ⟨h6, ?_, ?_⟩
    · intro c hc
      rw [h3]
      exact hch c ((h7 c).mp hc).1
    · intro t ht
      rw [h2] at ht
      rw [h3]
      exact htm t (List.mem_of_mem_filter ht)
  | sessionStart => exact ⟨hnd, hch, htm⟩
  | sessionEnd => exact ⟨hnd, hch, htm⟩
  | modelLoaded objs => exact ⟨hnd, hch, htm⟩

theorem wf_new : WF App.new := by
  refine ⟨by decide, by decide, ?_⟩
  intro t ht
  simp [App.new] at ht

theorem wf_run (app : App) (events : List Event) (h : WF app) : WF (run app events) := by
  induction events generalizing app with
  | nil => exact h
  | cons e rest ih => exact ih (step app e) (wf_step app e h)

/-- Every event keeps the life of an annotation on its course. -/
theorem lifetime_step (a b D : Nat) (app : App) (e : Event) (h : Lifetime a b D app) :
    Lifetime a b D (step app e) := by
  obtain ⟨hwf, ha, hb, hpre, hpost⟩ := h
  have hwf' := wf_step app e hwf
  obtain ⟨hnd, hch, htm⟩ := hwf
  refine ⟨hwf', ?_⟩
  cases e with
  | update inp =>
    obtain ⟨-, -, h3, h4, h5, h6⟩ := update_frame app inp
    simp only [step]
    rw [h3, h4, h5]
    exact ⟨lt_of_lt_of_le ha h6, lt_of_lt_of_le hb h6, hpre, hpost⟩
  | fontLoaded i =>
    simp only [step]
    cases hreq : app.pendingText[i]? with
    | none => exact ⟨ha, hb, hpre, hpost⟩
    | some req =>
      obtain ⟨h1, h2, h3, -, h5⟩ := fontCallback_state
        { app with pendingText := app.pendingText.eraseIdx i } req
      simp only at h1 h2 h3 h5 ⊢
      rw [h1, h2, h3, h5]
      refine ⟨by omega, by omega, ?_, ?_⟩
      · intro hlt
        obtain ⟨p1, p2, p3, p4⟩ := hpre hlt
        refine ⟨List.mem_append_left _ p1, List.mem_append_left _ p2,
          List.mem_append_left _ p3, ?_⟩
        intro t ht hne
        rw [List.mem_append] at ht
        rcases ht with ht | ht
        · exact p4 t ht hne
        · cases hcb : req.onLoad with
          | none => simp [hcb] at ht
          | some cb =>
            cases cb with
            | removeAfter delay =>
              simp [hcb] at ht
              subst ht
              simp only
              omega
      · intro hge
        obtain ⟨q1, q2⟩ := hpost hge
        constructor
        · intro hmem
          rw [List.mem_append] at hmem
          rcases hmem with hmem | hmem
          · exact q1 hmem
          · simp at hmem
            omega
        · intro hmem
          rw [List.mem_append] at hmem
          rcases hmem with hmem | hmem
          · exact q2 hmem
          · simp at hmem
            omega
  | tick =>
    obtain ⟨h1, h2, h3, -, h5⟩ := tick_state app
    obtain ⟨-, h7⟩ := h5 hnd
    simp only [step]
    rw [h1, h3]
    refine ⟨ha, hb, ?_, ?_⟩
    · intro hlt
      have hlt0 : app.now < D := by omega
      obtain ⟨p1, p2, p3, p4⟩ := hpre hlt0
      have hother : ∀ t ∈ app.timers, t.due ≤ app.now + 1 →
          t.nameMesh ≠ a ∧ t.nameMesh ≠ b ∧ t.manufMesh ≠ a ∧ t.manufMesh ≠ b := by
        intro t ht hdue
        apply p4 t ht
        intro heq
        rw [heq] at hdue
        simp only at hdue
        omega
      refine ⟨?_, ?_, ?_, ?_⟩
      · rw [h7]
        exact ⟨p1, fun t ht hdue =>
          ⟨fun hc => (hother t ht hdue).1 hc.symm, fun hc => (hother t ht hdue).2.2.1 hc.symm⟩⟩
      · rw [h7]
        exact ⟨p2, fun t ht hdue =>
          ⟨fun hc => (hother t ht hdue).2.1 hc.symm,
           fun hc => (hother t ht hdue).2.2.2 hc.symm⟩⟩
      · rw [h2, List.mem_filter]
        refine ⟨p3, ?_⟩
        simp only [Bool.not_eq_true', decide_eq_false_iff_not, not_le]
        omega
      · intro t ht hne
        rw [h2] at ht
        exact p4 t (List.mem_of_mem_filter ht) hne
    · intro hge
      by_cases hold : D ≤ app.now
      · obtain ⟨q1, q2⟩ := hpost hold
        exact ⟨fun hc => q1 ((h7 a).mp hc).1, fun hc => q2 ((h7 b).mp hc).1⟩
      · have hlt0 : app.now < D := by omega
        obtain ⟨-, -, p3, -⟩ := hpre hlt0
        have hdue : (⟨D, a, b⟩ : Timer).due ≤ app.now + 1 := hge
        exact ⟨fun hc => (((h7 a).mp hc).2 _ p3 hdue).1 rfl,
               fun hc => (((h7 b).mp hc).2 _ p3 hdue).2 rfl⟩
  | sessionStart => exact ⟨ha, hb, hpre, hpost⟩
  | sessionEnd => exact ⟨ha, hb, hpre, hpost⟩
  | modelLoaded objs => exact ⟨ha, hb, hpre, hpost⟩

theorem lifetime_run (a b D : Nat) (app : App) (events : List Event)
    (h : Lifetime a b D app) : Lifetime a b D (run app events) := by
  induction events generalizing app with
  | nil => exact h
  | cons e rest ih => exact ih (step app e) (lifetime_step a b D app e h)

/-- The arrival of the font of an annotation requested by a pick starts the life of its
two meshes. -/
theorem lifetime_start (app : App) (i : Nat) (req : TextRequest) (hwf : WF app)
    (hreq : app.pendingText[i]? = some req)
    (hcb : req.onLoad = some (.removeAfter 2000)) :
    Lifetime (app.nextRef + 4) (app.nextRef + 9) (app.now + 2000)
      (step app (.fontLoaded i)) := by
  have hwf' := wf_step app (.fontLoaded i) hwf
  obtain ⟨hnd, hch, htm⟩ := hwf
  refine ⟨hwf', ?_⟩
  simp only [step, hreq] at hwf' ⊢
  obtain ⟨h1, h2, h3, -, h5⟩ := fontCallback_state
    { app with pendingText := app.pendingText.eraseIdx i } req
  simp only [hcb] at h1 h2 h3 h5 ⊢
  rw [h1, h2, h3, h5]
  refine ⟨by omega, by omega, ?_, ?_⟩
  · intro _
    refine ⟨by simp, by simp, by simp, ?_⟩
    intro t ht hne
    rw [List.mem_append] at ht
    rcases ht with ht | ht
    · have := htm t ht
      omega
    · simp at ht
      exact absurd ht hne
  · intro hge
    omega

/-- C9: take an annotation requested by a pick, whose font arrives at time T, the moment
at which `createText` adds the two label meshes to the scene and calls `onLoad`.  The
removal is then scheduled for T + 2000; whatever happens afterwards (frames, other
annotations, the passing of time), both meshes are children of the scene as long as the
clock is before T + 2000 and neither is a child once the clock has reached T + 2000; the
removal callback itself detaches those two meshes and no other child of the scene. -/
theorem annotation_lifetime (app : App) (i : Nat) (req : TextRequest) (hwf : WF app)
    (hreq : app.pendingText[i]? = some req)
    (hcb : req.onLoad = some (.removeAfter 2000)) (events : List Event) :
    ((app.nextRef + 4) ∈ (step app (.fontLoaded i)).children ∧
      (app.nextRef + 9) ∈ (step app (.fontLoaded i)).children ∧
      (⟨app.now + 2000, app.nextRef + 4, app.nextRef + 9⟩ : Timer) ∈
        (step app (.fontLoaded i)).timers ∧
      (step app (.fontLoaded i)).now = app.now) ∧
    ((run (step app (.fontLoaded i)) events).now < app.now + 2000 →
      (app.nextRef + 4) ∈ (run (step app (.fontLoaded i)) events).children ∧
      (app.nextRef + 9) ∈ (run (step app (.fontLoaded i)) events).children) ∧
    (app.now + 2000 ≤ (run (step app (.fontLoaded i)) events).now →
      (app.nextRef + 4) ∉ (run (step app (.fontLoaded i)) events).children ∧
      (app.nextRef + 9) ∉ (run (step app (.fontLoaded i)) events).children) ∧
    ∀ s : App, s.children.Nodup → ∀ c,
      c ∈ (fireTimer s ⟨app.now + 2000, app.nextRef + 4, app.nextRef + 9⟩).children ↔
        c ∈ s.children ∧ c ≠ app.nextRef + 4 ∧ c ≠ app.nextRef + 9 := by
  have hstart := lifetime_start app i req hwf hreq hcb
  have hrun := lifetime_run _ _ _ _ events hstart
  have hnow : (step app (.fontLoaded i)).now = app.now := by
    simp only [step, hreq]
    exact (fontCallback_state _ req).2.2.1
  refine ⟨?_, ?_, ?_, ?_⟩
  · obtain ⟨p1, p2, p3, -⟩ := hstart.2.2.2.1 (by omega)
    exact ⟨p1, p2, p3, hnow⟩
  · intro hlt
    obtain ⟨p1, p2, -, -⟩ := hrun.2.2.2.1 hlt
    exact ⟨p1, p2⟩
  · intro hge
    exact hrun.2.2.2.2 hge
  · intro s hnd c
    obtain ⟨-, h⟩ := (foldl_fireTimer
      [⟨app.now + 2000, app.nextRef + 4, app.nextRef + 9⟩] s).2.2.2.2 hnd
    have := h c
    simpa using this

theorem run_ticks_now (app : App) (n : Nat) :
    (run app (List.replicate n .tick)).now = app.now + n := by
  induction n generalizing app with
  | zero => rfl
  | succ n ih =>
    simp only [List.replicate_succ, run, List.foldl_cons]
    have := ih (step app .tick)
    simp only [run] at this
    rw [this]
    simp only [step]
    rw [(tick_state app).1]
    omega

theorem examplePicked_pendingText :
    examplePicked.pendingText =
      [⟨"Name: Wall-12", "Description: undefined", ⟨0 - 100, 0 + 160, 0⟩,
        ⟨0 - 100, 0 + 140, 0⟩, some (.removeAfter 2000)⟩] :=
  (update_hit_state (step App.new (.modelLoaded [exampleWall] [⟨20, ⟨21, 0xffffff⟩⟩])) examplePick 7 []
    exampleWall rfl rfl rfl (by decide)).1

theorem annotation_lifetime_witness :
    (examplePicked.now = 0 ∧ examplePicked.nextRef = 5) ∧
    (9 ∈ (run (step examplePicked (.fontLoaded 0)) (List.replicate 1999 .tick)).children ∧
     14 ∈ (run (step examplePicked (.fontLoaded 0)) (List.replicate 1999 .tick)).children) ∧
    (9 ∉ (run (step examplePicked (.fontLoaded 0)) (List.replicate 2001 .tick)).children ∧
     14 ∉ (run (step examplePicked (.fontLoaded 0)) (List.replicate 2001 .tick)).children) := by
  have hwf : WF examplePicked := wf_run App.new _ wf_new
  have hnow : examplePicked.now = 0 :=
    (update_frame (step App.new (.modelLoaded [exampleWall] [⟨20, ⟨21, 0xffffff⟩⟩])) examplePick).2.2.2.2.1
  have hnext : examplePicked.nextRef = 5 :=
    (update_hit_state (step App.new (.modelLoaded [exampleWall] [⟨20, ⟨21, 0xffffff⟩⟩]))
      examplePick 7 [] exampleWall rfl rfl rfl (by decide)).2.2.2
  have hreq : examplePicked.pendingText[0]? = some
      ⟨"Name: Wall-12", "Description: undefined", ⟨0 - 100, 0 + 160, 0⟩,
        ⟨0 - 100, 0 + 140, 0⟩, some (.removeAfter 2000)⟩ := by
    rw [examplePicked_pendingText]
    rfl
  have hstep : (step examplePicked (.fontLoaded 0)).now = 0 := by
    simp only [step, hreq]
    rw [(fontCallback_state _ _).2.2.1]
    exact hnow
  have early := (annotation_lifetime examplePicked 0 _ hwf hreq rfl
    (List.replicate 1999 .tick)).2.1
  have late := (annotation_lifetime examplePicked 0 _ hwf hreq rfl
    (List.replicate 2001 .tick)).2.2.1
  rw [run_ticks_now, hstep, hnow, hnext] at early late
  exact ⟨⟨hnow, hnext⟩, early (by decide), late (by decide)⟩

/-! ## Orbit controls in reachable states -/

theorem xrEnabled_step (app : App) (e : Event) :
    (step app e).xrEnabled = app.xrEnabled := by
  cases e with
  | update inp => exact (update_frame app inp).1
  | fontLoaded i =>
    simp only [step]
    cases app.pendingText[i]? with
    | none => rfl
    | some req => exact (fontCallback_state _ req).2.2.2.1
  | tick => exact (tick_state app).2.2.2.1
  | sessionStart => rfl
  | sessionEnd => rfl
  | modelLoaded objs => rfl

/-- The flag `xr.enabled` is true in every state reached after the constructor. -/
theorem xrEnabled_run (events : List Event) : (run App.new events).xrEnabled = true := by
  have h : ∀ app : App, (run app events).xrEnabled = app.xrEnabled := by
    induction events with
    | nil => intro app; rfl
    | cons e rest ih =>
      intro app
      simp only [run, List.foldl_cons]
      have := ih (step app e)
      simp only [run] at this
      rw [this, xrEnabled_step]
  rw [h]
  rfl

/-- The calls that `update` adds to the log; `controls.update` can only come from the
first step. -/
theorem update_log (app : App) (inp : FrameInput) :
    ∃ calls, (update app inp).app.log = (controlsStep app).log ++ calls ∧
      Call.controlsUpdate ∉ calls := by
  obtain ⟨position, n, hpose⟩ := poseUpdate_controlsStep_frame app inp.frame
  cases h : (poseUpdate (controlsStep app) inp.frame).thrown with
  | some e =>
    rw [update_app_of_thrown app inp e h, hpose]
    exact ⟨_, rfl, by simp [List.mem_replicate]⟩
  | none =>
    rw [update_app_of_ok app inp h, hpose]
    unfold inputPickRender
    simp only [App.call]
    obtain ⟨calls, hcalls, hno⟩ := pickStep_log
      { app with
        model := { app.model with position := position },
        log := (((((controlsStep app).log ++
          List.replicate n (.consoleLog "Model Pose updated from marker")) ++
          [.keyboardUpdate]) ++ [.mouseUpdate]) ++ [.touchUpdate]) ++
          [.setFromCamera (pointerX inp.mouseX inp.innerWidth)
            (pointerY inp.mouseY inp.innerHeight)] } inp
    rw [hcalls, (pickStep_frame _ inp).2.2.2.1]
    refine ⟨List.replicate n (.consoleLog "Model Pose updated from marker") ++
      [.keyboardUpdate, .mouseUpdate, .touchUpdate,
       .setFromCamera (pointerX inp.mouseX inp.innerWidth)
         (pointerY inp.mouseY inp.innerHeight)] ++ calls ++ [.render app.children],
      by simp, ?_⟩
    simp [List.mem_replicate, hno]

/-- In every state reached after the constructor, presenting or not, a call of `update`
does not call `controls.update`. -/
theorem controls_never_updated (events : List Event) (inp : FrameInput) :
    ∃ calls, (update (run App.new events) inp).app.log =
        (run App.new events).log ++ calls ∧
      Call.controlsUpdate ∉ calls := by
  obtain ⟨calls, h1, h2⟩ := update_log (run App.new events) inp
  refine ⟨calls, ?_, h2⟩
  rw [h1]
  unfold controlsStep
  simp [xrEnabled_run]

end BIMFM
